import Mathlib

/-!
Shallow embedding of `src/main.py` (the DataGen agent's utility tools):
the JSON persistence helpers `write_json` / `read_json`, the sample-user
generator `generate_sample_users`, and the CLI loop's exit test.

Conventions of the embedding:
* Python integers are `Int`, Python lists are `List`, Python dicts are
  ordered association lists `List (String × _)` (insertion order).
* The process-wide random source is an explicit stream `rng : Nat → Nat`
  of raw draws, consumed left to right, one draw per `random.randint`
  call; `random.randint(a, b)` maps a raw draw `r` to `a + r % (b - a + 1)`,
  which for `a ≤ b` ranges exactly over `[a, b]`.
* `datetime.now()` is an explicit parameter `now : Int` (microseconds, the
  resolution of CPython datetimes); `timedelta(days = d)` subtracts
  `d * usPerDay`; `datetime.isoformat` is an explicit parameter
  `iso : Int → String` (its calendar rendering is opaque to every claim).
* The `json` module is embedded concretely: a JSON value type `JVal`
  (numbers restricted to integers, the only numbers this program
  produces), the pretty serializer of `json.dump`/`json.dumps` with
  `indent=2` in both its `ensure_ascii` variants, and the recursive
  descent parser of `json.load`.
-/

/-! ### Python string / integer primitives -/

/-- Decimal digits of `n`, most significant first, with explicit fuel
(`fuel ≥ n` is always enough); empty for `n = 0`. -/
def natDigits : Nat → Nat → List Char
  | 0, _ => []
  | fuel + 1, n => if n = 0 then [] else natDigits fuel (n / 10) ++ [Nat.digitChar (n % 10)]

/-- Python `str` of a natural number, as a character list. -/
def natRepr (n : Nat) : List Char := if n = 0 then ['0'] else natDigits n n

/-- Python `str` of an integer, as a character list. -/
def intRepr : Int → List Char
  | .ofNat m => natRepr m
  | .negSucc m => '-' :: natRepr (m + 1)

/-- Python `str(int)`. -/
def pyStr (n : Int) : String := ⟨intRepr n⟩

/-- Python `str(int)` on a natural (used for `len(...)` values). -/
def pyStrN (n : Nat) : String := ⟨natRepr n⟩

/-- Python `str.lower` (exact on the ASCII range). -/
def pyLower (s : String) : String := ⟨s.data.map Char.toLower⟩

/-- Python `random.randint(a, b)` (both ends inclusive) fed by one raw
draw `r` of the random stream. -/
def pyRandint (r : Nat) (a b : Int) : Int := a + (r : Int) % (b - a + 1)

/-- Python whitespace for `str.strip()` (the ASCII whitespace characters). -/
def pyIsSpace (c : Char) : Bool :=
  c = ' ' ∨ c = '\t' ∨ c = '\n' ∨ c = '\r' ∨ c = '\x0b' ∨ c = '\x0c'

/-- Python `str.strip()`: remove leading and trailing whitespace. -/
def pyStrip (s : String) : String :=
  ⟨((s.data.dropWhile pyIsSpace).reverse.dropWhile pyIsSpace).reverse⟩

/-! ### JSON values (`json` module data model, numbers restricted to `int`) -/

inductive JVal where
  | jnull : JVal
  | jbool : Bool → JVal
  | jint : Int → JVal
  | jstr : String → JVal
  | jarr : List JVal → JVal
  | jobj : List (String × JVal) → JVal

/-- Microseconds per day: `timedelta(days = 1)` on CPython datetimes. -/
def usPerDay : Int := 86400000000

/-! ### `generate_sample_users` (src/main.py lines 45-89) -/

/-- Result of `generate_sample_users`: either `{"error": msg}` or
`{"users": users, "count": count}`, a tagged result. Each user record is
the ordered key/value list of the Python dict built in the loop body. -/
inductive GenResult where
  | error : String → GenResult
  | ok : List (List (String × JVal)) → Nat → GenResult

/-- The users of a generation result (`[]` for an error result). -/
def GenResult.usersD : GenResult → List (List (String × JVal))
  | .error _ => []
  | .ok users _ => users

/-- The count of a generation result (`0` for an error result). -/
def GenResult.countD : GenResult → Nat
  | .error _ => 0
  | .ok _ count => count

/-- One loop iteration of `generate_sample_users` (lines 71-87): the user
dict for index `i`. The dict literal evaluates its values top to bottom,
so iteration `i` consumes the raw draws `4*i` (userName suffix),
`4*i+1` (age), `4*i+2` (city index) and `4*i+3` (registration offset). -/
def mkUser (rng : Nat → Nat) (now : Int) (iso : Int → String)
    (first_names last_names domains : List String) (min_age max_age : Int)
    (city : List String) (i : Nat) : List (String × JVal) :=
  let first := first_names.getD i ""
  let last := last_names.getD (i % last_names.length) ""
  let domain := domains.getD (i % domains.length) ""
  let email := pyLower first ++ "." ++ pyLower last ++ "@" ++ domain
  [("id", .jint ((i : Int) + 1)),
   ("firstName", .jstr first),
   ("lastName", .jstr last),
   ("email", .jstr email),
   ("userName", .jstr (pyLower first ++ pyStr (pyRandint (rng (4 * i)) 100 999))),
   ("age", .jint (pyRandint (rng (4 * i + 1)) min_age max_age)),
   ("city", .jstr (city.getD (pyRandint (rng (4 * i + 2)) 0 ((city.length : Int) - 1)).toNat "")),
   ("registered_at", .jstr (iso (now - pyRandint (rng (4 * i + 3)) 0 365 * usPerDay)))]

/-- `generate_sample_users` (lines 46-89): six validation checks in
source order, first failure wins; otherwise one record per first name. -/
def generate_sample_users (rng : Nat → Nat) (now : Int) (iso : Int → String)
    (first_names last_names domains : List String) (min_age max_age : Int)
    (city : List String) : GenResult :=
  if first_names = [] then .error "first_names list cannot be empty."
  else if last_names = [] then .error "last_names list cannot be empty."
  else if domains = [] then .error "domains list cannot be empty."
  else if min_age > max_age then
    .error ("min_age " ++ pyStr min_age ++ " cannot be greater than max_age " ++
      pyStr max_age ++ ".")
  else if min_age < 0 ∨ max_age < 0 then .error "Ages must be non-negative."
  else if city = [] then .error "city list cannot be empty"
  else
    let users := (List.range first_names.length).map
      (mkUser rng now iso first_names last_names domains min_age max_age city)
    .ok users users.length

/-! ### CLI loop (src/main.py lines 146-157) -/

/-- The exit test of the CLI loop (line 148): the input line is stripped
on line 147, then its lowercasing is compared against
`['quit', 'exit', 'q', ""]`. -/
def shouldExit (line : String) : Bool :=
  pyLower (pyStrip line) ∈ (["quit", "exit", "q", ""] : List String)

/-- The CLI loop on a queue of input lines: the list of inputs forwarded
to `run_agent` before the loop terminates (each forwarded input is the
stripped line, line 147/153). -/
def cliForwarded : List String → List String
  | [] => []
  | l :: ls => if shouldExit l then [] else pyStrip l :: cliForwarded ls

/-! ### Helper lemmas for the generator -/

theorem pyRandint_bounds (r : Nat) {a b : Int} (h : a ≤ b) :
    a ≤ pyRandint r a b ∧ pyRandint r a b ≤ b := by
  have hm : 0 < b - a + 1 := by omega
  have h1 : 0 ≤ (r : Int) % (b - a + 1) := Int.emod_nonneg _ (by omega)
  have h2 : (r : Int) % (b - a + 1) < b - a + 1 := Int.emod_lt_of_pos _ hm
  unfold pyRandint
  omega

theorem generate_valid_eq (rng : Nat → Nat) (now : Int) (iso : Int → String)
    (first_names last_names domains : List String) (min_age max_age : Int)
    (city : List String) (hfn : first_names ≠ []) (hln : last_names ≠ [])
    (hdm : domains ≠ []) (hle : min_age ≤ max_age) (hmn : 0 ≤ min_age)
    (hmx : 0 ≤ max_age) (hct : city ≠ []) :
    generate_sample_users rng now iso first_names last_names domains min_age max_age city =
      .ok ((List.range first_names.length).map
        (mkUser rng now iso first_names last_names domains min_age max_age city))
        first_names.length := by
  simp only [generate_sample_users, if_neg hfn, if_neg hln, if_neg hdm,
    if_neg (by omega : ¬ min_age > max_age),
    if_neg (by omega : ¬ (min_age < 0 ∨ max_age < 0)), if_neg hct,
    List.length_map, List.length_range]

theorem users_getD {n i : Nat} (f : Nat → List (String × JVal)) (h : i < n) :
    ((List.range n).map f).getD i [] = f i := by
  simp [List.getD_eq_getElem?_getD, List.getElem?_map, List.getElem?_range, h]

/-! ### Claims about the generator -/

/-- Claim C1: for every input passing all six validation checks,
`generate_sample_users` returns a success result `{users, count}` with
exactly `len(first_names)` records, the record at index `i` carries
`id = i + 1` (so ids are the sequential integers `1..len(first_names)` in
order), and `count` equals `len(first_names)`. -/
theorem claim_C1 (rng : Nat → Nat) (now : Int) (iso : Int → String)
    (first_names last_names domains : List String) (min_age max_age : Int)
    (city : List String) (hfn : first_names ≠ []) (hln : last_names ≠ [])
    (hdm : domains ≠ []) (hle : min_age ≤ max_age) (hmn : 0 ≤ min_age)
    (hmx : 0 ≤ max_age) (hct : city ≠ []) :
    ∃ users,
      generate_sample_users rng now iso first_names last_names domains min_age max_age city =
        .ok users first_names.length ∧
      users.length = first_names.length ∧
      ∀ i, i < first_names.length →
        (users.getD i []).lookup "id" = some (.jint ((i : Int) + 1)) := by
  refine ⟨_, generate_valid_eq rng now iso _ _ _ _ _ _ hfn hln hdm hle hmn hmx hct,
    by simp, ?_⟩
  intro i hi
  rw [users_getD _ hi]
  rfl

theorem claim_C1_witness :
    ∃ users,
      generate_sample_users (fun _ => 0) 0 pyStr ["Ann"] ["Lee"] ["x.com"] 20 20 ["Rome"] =
        .ok users (["Ann"] : List String).length ∧
      users.length = (["Ann"] : List String).length ∧
      ∀ i, i < (["Ann"] : List String).length →
        (users.getD i []).lookup "id" = some (.jint ((i : Int) + 1)) :=
  claim_C1 (fun _ => 0) 0 pyStr ["Ann"] ["Lee"] ["x.com"] 20 20 ["Rome"]
    (by decide) (by decide) (by decide) (by decide) (by decide) (by decide) (by decide)

/-- Claim C2: the six validation checks run in source order and the first
failing check wins, each returning its `{error: message}` result; in
particular a call with empty `first_names` returns exactly
`{error: "first_names list cannot be empty."}` whatever the other
arguments are. -/
theorem claim_C2 (rng : Nat → Nat) (now : Int) (iso : Int → String)
    (first_names last_names domains : List String) (min_age max_age : Int)
    (city : List String) :
    (first_names = [] →
      generate_sample_users rng now iso first_names last_names domains min_age max_age city =
        .error "first_names list cannot be empty.") ∧
    (first_names ≠ [] → last_names = [] →
      generate_sample_users rng now iso first_names last_names domains min_age max_age city =
        .error "last_names list cannot be empty.") ∧
    (first_names ≠ [] → last_names ≠ [] → domains = [] →
      generate_sample_users rng now iso first_names last_names domains min_age max_age city =
        .error "domains list cannot be empty.") ∧
    (first_names ≠ [] → last_names ≠ [] → domains ≠ [] → min_age > max_age →
      generate_sample_users rng now iso first_names last_names domains min_age max_age city =
        .error ("min_age " ++ pyStr min_age ++ " cannot be greater than max_age " ++
          pyStr max_age ++ ".")) ∧
    (first_names ≠ [] → last_names ≠ [] → domains ≠ [] → ¬ min_age > max_age →
      (min_age < 0 ∨ max_age < 0) →
      generate_sample_users rng now iso first_names last_names domains min_age max_age city =
        .error "Ages must be non-negative.") ∧
    (first_names ≠ [] → last_names ≠ [] → domains ≠ [] → ¬ min_age > max_age →
      ¬ (min_age < 0 ∨ max_age < 0) → city = [] →
      generate_sample_users rng now iso first_names last_names domains min_age max_age city =
        .error "city list cannot be empty") ∧
    generate_sample_users rng now iso [] ["Lee"] ["x.com"] 20 30 ["Rome"] =
      .error "first_names list cannot be empty." := by
  refine ⟨?_, ?_, ?_, ?_, ?_, ?_, rfl⟩
  · intro h1
    rw [generate_sample_users, if_pos h1]
  · intro h1 h2
    rw [generate_sample_users, if_neg h1, if_pos h2]
  · intro h1 h2 h3
    rw [generate_sample_users, if_neg h1, if_neg h2, if_pos h3]
  · intro h1 h2 h3 h4
    rw [generate_sample_users, if_neg h1, if_neg h2, if_neg h3, if_pos h4]
  · intro h1 h2 h3 h4 h5
    rw [generate_sample_users, if_neg h1, if_neg h2, if_neg h3, if_neg h4, if_pos h5]
  · intro h1 h2 h3 h4 h5 h6
    rw [generate_sample_users, if_neg h1, if_neg h2, if_neg h3, if_neg h4, if_neg h5,
      if_pos h6]

theorem claim_C2_witness :
    generate_sample_users (fun _ => 0) 0 pyStr [] ["Lee"] ["x.com"] 20 30 ["Rome"] =
      .error "first_names list cannot be empty." :=
  (claim_C2 (fun _ => 0) 0 pyStr [] ["Lee"] ["x.com"] 20 30 ["Rome"]).1 rfl

/-- Claim C3: for every valid input and every index `i`, the generated
record's `email` equals
`lowercase(first_names[i]) ++ "." ++ lowercase(last_names[i mod len(last_names)])
 ++ "@" ++ domains[i mod len(domains)]`, the last name and domain wrapping
cyclically. -/
theorem claim_C3 (rng : Nat → Nat) (now : Int) (iso : Int → String)
    (first_names last_names domains : List String) (min_age max_age : Int)
    (city : List String) (hfn : first_names ≠ []) (hln : last_names ≠ [])
    (hdm : domains ≠ []) (hle : min_age ≤ max_age) (hmn : 0 ≤ min_age)
    (hmx : 0 ≤ max_age) (hct : city ≠ []) (i : Nat) (hi : i < first_names.length) :
    ((generate_sample_users rng now iso first_names last_names domains min_age max_age
        city).usersD.getD i []).lookup "email" =
      some (.jstr (pyLower (first_names.getD i "") ++ "." ++
        pyLower (last_names.getD (i % last_names.length) "") ++ "@" ++
        domains.getD (i % domains.length) "")) := by
  rw [generate_valid_eq rng now iso _ _ _ _ _ _ hfn hln hdm hle hmn hmx hct]
  show (((List.range _).map _).getD i []).lookup "email" = _
  rw [users_getD _ hi]
  rfl

theorem claim_C3_witness :
    ((generate_sample_users (fun _ => 0) 0 pyStr ["Ann", "Bo"] ["Lee"] ["x.com"] 20 30
        ["Rome"]).usersD.getD 1 []).lookup "email" =
      some (.jstr (pyLower ((["Ann", "Bo"] : List String).getD 1 "") ++ "." ++
        pyLower ((["Lee"] : List String).getD (1 % (["Lee"] : List String).length) "") ++
        "@" ++ (["x.com"] : List String).getD (1 % (["x.com"] : List String).length) "")) :=
  claim_C3 (fun _ => 0) 0 pyStr ["Ann", "Bo"] ["Lee"] ["x.com"] 20 30 ["Rome"]
    (by decide) (by decide) (by decide) (by decide) (by decide) (by decide) (by decide)
    1 (by decide)

/-- Claim C4: for every valid input, every random source and every
generated record, the record's `age` lies within `[min_age, max_age]`,
both ends inclusive. -/
theorem claim_C4 (rng : Nat → Nat) (now : Int) (iso : Int → String)
    (first_names last_names domains : List String) (min_age max_age : Int)
    (city : List String) (hfn : first_names ≠ []) (hln : last_names ≠ [])
    (hdm : domains ≠ []) (hle : min_age ≤ max_age) (hmn : 0 ≤ min_age)
    (hmx : 0 ≤ max_age) (hct : city ≠ []) (i : Nat) (hi : i < first_names.length) :
    ∃ a : Int,
      ((generate_sample_users rng now iso first_names last_names domains min_age max_age
          city).usersD.getD i []).lookup "age" = some (.jint a) ∧
      min_age ≤ a ∧ a ≤ max_age := by
  refine ⟨pyRandint (rng (4 * i + 1)) min_age max_age, ?_,
    (pyRandint_bounds _ hle).1, (pyRandint_bounds _ hle).2⟩
  rw [generate_valid_eq rng now iso _ _ _ _ _ _ hfn hln hdm hle hmn hmx hct]
  show (((List.range _).map _).getD i []).lookup "age" = _
  rw [users_getD _ hi]
  rfl

theorem claim_C4_witness :
    ∃ a : Int,
      ((generate_sample_users (fun _ => 7) 0 pyStr ["Ann"] ["Lee"] ["x.com"] 20 30
          ["Rome"]).usersD.getD 0 []).lookup "age" = some (.jint a) ∧
      (20 : Int) ≤ a ∧ a ≤ 30 :=
  claim_C4 (fun _ => 7) 0 pyStr ["Ann"] ["Lee"] ["x.com"] 20 30 ["Rome"]
    (by decide) (by decide) (by decide) (by decide) (by decide) (by decide) (by decide)
    0 (by decide)

/-- Claim C8, counterexample: on a concrete valid input the (single)
generated record carries no field named `registeredAt` — the source
names the field `registered_at` (src/main.py line 85). -/
theorem claim_C8_counterexample :
    (generate_sample_users (fun _ => 0) 0 pyStr ["Ann"] ["Lee"] ["x.com"] 20 20
        ["Rome"]).usersD.map (fun u => (u.lookup "registeredAt").isSome) = [false] ∧
    (generate_sample_users (fun _ => 0) 0 pyStr ["Ann"] ["Lee"] ["x.com"] 20 20
        ["Rome"]).countD = 1 := ⟨rfl, rfl⟩

/-- Claim C8 as amended: for every valid input and every generated
record, the record carries a field named `registered_at` (not
`registeredAt`) whose value is the ISO-8601 rendering (modelled by the
abstract parameter `iso`) of the generation time minus a whole number of
days `d` with `0 ≤ d ≤ 365` drawn from the random source. -/
theorem claim_C8_amended (rng : Nat → Nat) (now : Int) (iso : Int → String)
    (first_names last_names domains : List String) (min_age max_age : Int)
    (city : List String) (hfn : first_names ≠ []) (hln : last_names ≠ [])
    (hdm : domains ≠ []) (hle : min_age ≤ max_age) (hmn : 0 ≤ min_age)
    (hmx : 0 ≤ max_age) (hct : city ≠ []) (i : Nat) (hi : i < first_names.length) :
    ∃ d : Int, 0 ≤ d ∧ d ≤ 365 ∧
      ((generate_sample_users rng now iso first_names last_names domains min_age max_age
          city).usersD.getD i []).lookup "registered_at" =
        some (.jstr (iso (now - d * usPerDay))) := by
  refine ⟨pyRandint (rng (4 * i + 3)) 0 365,
    (pyRandint_bounds _ (by omega)).1, (pyRandint_bounds _ (by omega)).2, ?_⟩
  rw [generate_valid_eq rng now iso _ _ _ _ _ _ hfn hln hdm hle hmn hmx hct]
  show (((List.range _).map _).getD i []).lookup "registered_at" = _
  rw [users_getD _ hi]
  rfl

theorem claim_C8_amended_witness :
    ∃ d : Int, 0 ≤ d ∧ d ≤ 365 ∧
      ((generate_sample_users (fun _ => 3) 0 pyStr ["Ann"] ["Lee"] ["x.com"] 20 30
          ["Rome"]).usersD.getD 0 []).lookup "registered_at" =
        some (.jstr (pyStr (0 - d * usPerDay))) :=
  claim_C8_amended (fun _ => 3) 0 pyStr ["Ann"] ["Lee"] ["x.com"] 20 30 ["Rome"]
    (by decide) (by decide) (by decide) (by decide) (by decide) (by decide) (by decide)
    0 (by decide)

/-! ### Claims about the CLI loop -/

/-- Claim C9, counterexample: the input line `" quit "` is neither one of
the exit tokens `quit`/`exit`/`q` (even matched case-insensitively) nor
an empty line, yet the loop terminates on it without forwarding anything:
line 147 strips the line before the comparison. -/
theorem claim_C9_counterexample :
    pyLower " quit " ∉ (["quit", "exit", "q", ""] : List String) ∧
    " quit " ≠ "" ∧
    shouldExit " quit " = true ∧
    cliForwarded [" quit ", "hello"] = [] := by
  refine ⟨by decide, by decide, by decide, ?_⟩
  rw [cliForwarded, if_pos (by decide)]

/-- Claim C9 as amended: the CLI loop terminates exactly when the input
line, after stripping leading and trailing whitespace, lowercases to one
of `quit`, `exit`, `q` or the empty string; every other input line is
forwarded (in stripped form) and does not terminate the loop. -/
theorem claim_C9_amended (l : String) (ls : List String) :
    (shouldExit l = true ↔
      (pyLower (pyStrip l) = "quit" ∨ pyLower (pyStrip l) = "exit" ∨
       pyLower (pyStrip l) = "q" ∨ pyLower (pyStrip l) = "")) ∧
    (shouldExit l = true → cliForwarded (l :: ls) = []) ∧
    (shouldExit l = false → cliForwarded (l :: ls) = pyStrip l :: cliForwarded ls) := by
  refine ⟨?_, ?_, ?_⟩
  · simp [shouldExit]
  · intro h
    rw [cliForwarded, if_pos h]
  · intro h
    rw [cliForwarded, if_neg (by simp [h])]

theorem claim_C9_amended_witness :
    (shouldExit " QuIt" = true ↔
      (pyLower (pyStrip " QuIt") = "quit" ∨ pyLower (pyStrip " QuIt") = "exit" ∨
       pyLower (pyStrip " QuIt") = "q" ∨ pyLower (pyStrip " QuIt") = "")) ∧
    (shouldExit " QuIt" = true → cliForwarded [" QuIt", "x"] = []) ∧
    (shouldExit " QuIt" = false →
      cliForwarded [" QuIt", "x"] = pyStrip " QuIt" :: cliForwarded ["x"]) :=
  claim_C9_amended " QuIt" ["x"]

/-! ### `json.dumps(…, indent=2)`: the serializer, in both
`ensure_ascii` variants -/

/-- Four lowercase hex digits, as in CPython's `\uXXXX` escapes. -/
def hex4Chars (n : Nat) : List Char :=
  [Nat.digitChar (n / 4096 % 16), Nat.digitChar (n / 256 % 16),
   Nat.digitChar (n / 16 % 16), Nat.digitChar (n % 16)]

/-- Character escaping of `json.dumps` with `ensure_ascii=False`
(CPython's `ESCAPE` regex: only `"`, `\` and the C0 control characters
are escaped; everything else, non-ASCII included, is verbatim). -/
def escCharF (c : Char) : List Char :=
  if c = '"' then ['\\', '"']
  else if c = '\\' then ['\\', '\\']
  else if c = '\n' then ['\\', 'n']
  else if c = '\t' then ['\\', 't']
  else if c = '\r' then ['\\', 'r']
  else if c = '\x08' then ['\\', 'b']
  else if c = '\x0c' then ['\\', 'f']
  else if c.toNat < 0x20 then '\\' :: 'u' :: hex4Chars c.toNat
  else [c]

/-- Character escaping of `json.dumps` with the default
`ensure_ascii=True` (CPython's `ESCAPE_ASCII` regex: additionally every
character outside `0x20..0x7e` becomes `\uXXXX`, astral characters a
surrogate pair). -/
def escCharT (c : Char) : List Char :=
  if c.toNat < 0x7f then escCharF c
  else if c.toNat < 0x10000 then '\\' :: 'u' :: hex4Chars c.toNat
  else
    '\\' :: 'u' :: hex4Chars (0xD800 + (c.toNat - 0x10000) / 0x400) ++
      '\\' :: 'u' :: hex4Chars (0xDC00 + (c.toNat - 0x10000) % 0x400)

/-- `indent = 2` indentation at nesting depth `d`. -/
def indentC (d : Nat) : List Char := List.replicate (2 * d) ' '

mutual
/-- `json.dumps` with `indent = 2` and the given character escaping, at
nesting depth `d` (CPython `json.encoder._make_iterencode`): items one
per line, separators `',', ': '`, empty containers inline. -/
def serVal (esc : Char → List Char) (d : Nat) : JVal → List Char
  | .jnull => "null".data
  | .jbool true => "true".data
  | .jbool false => "false".data
  | .jint n => intRepr n
  | .jstr s => '"' :: s.data.flatMap esc ++ ['"']
  | .jarr [] => "[]".data
  | .jarr (x :: xs) =>
      '[' :: '\n' :: indentC (d + 1) ++ serVal esc (d + 1) x ++
        serElems esc (d + 1) xs ++ '\n' :: indentC d ++ [']']
  | .jobj [] => "{}".data
  | .jobj (kv :: kvs) =>
      '{' :: '\n' :: indentC (d + 1) ++
        ('"' :: kv.1.data.flatMap esc ++ '"' :: ':' :: ' ' :: serVal esc (d + 1) kv.2) ++
        serMembers esc (d + 1) kvs ++ '\n' :: indentC d ++ ['}']

/-- The remaining array items, each preceded by `",\n" ++ indent`. -/
def serElems (esc : Char → List Char) (d : Nat) : List JVal → List Char
  | [] => []
  | x :: xs => ',' :: '\n' :: indentC d ++ serVal esc d x ++ serElems esc d xs

/-- The remaining object members, each preceded by `",\n" ++ indent`. -/
def serMembers (esc : Char → List Char) (d : Nat) : List (String × JVal) → List Char
  | [] => []
  | kv :: kvs => ',' :: '\n' :: indentC d ++
      ('"' :: kv.1.data.flatMap esc ++ '"' :: ':' :: ' ' :: serVal esc d kv.2) ++
      serMembers esc d kvs
end

/-- `json.dumps(v, indent=2, ensure_ascii=False)`, as `write_json` writes. -/
def dumpsPretty (v : JVal) : String := ⟨serVal escCharF 0 v⟩

/-- `json.dumps(v, indent=2)` with the default `ensure_ascii=True`, as
`read_json` returns. -/
def dumpsAscii (v : JVal) : String := ⟨serVal escCharT 0 v⟩

/-! ### `json.load`: the recursive descent decoder -/

/-- JSON whitespace skipped by the decoder. -/
def jsonWs (c : Char) : Bool := c = ' ' ∨ c = '\t' ∨ c = '\n' ∨ c = '\r'

def skipWs : List Char → List Char
  | [] => []
  | c :: cs => if jsonWs c then skipWs cs else c :: cs

def consFst (c : Char) : Option (List Char × List Char) → Option (List Char × List Char)
  | none => none
  | some (s, r) => some (c :: s, r)

def hexVal (c : Char) : Option Nat :=
  if 48 ≤ c.toNat ∧ c.toNat ≤ 57 then some (c.toNat - 48)
  else if 97 ≤ c.toNat ∧ c.toNat ≤ 102 then some (c.toNat - 87)
  else if 65 ≤ c.toNat ∧ c.toNat ≤ 70 then some (c.toNat - 55)
  else none

def hex4 (a b c d : Char) : Option Nat :=
  match hexVal a, hexVal b, hexVal c, hexVal d with
  | some x, some y, some z, some w => some (((x * 16 + y) * 16 + z) * 16 + w)
  | _, _, _, _ => none

/-- The low-surrogate half of a `\uXXXX` escape pair, in CPython
`py_scanstring`: a high surrogate must pair with a following low
surrogate (a lone surrogate would decode to a CPython string that is
not valid unicode, which has no counterpart in this embedding's
domain); `n` is the high surrogate already read. -/
def decodeLow (n : Nat) : List Char → Option (Char × List Char)
  | s1 :: s2 :: a2 :: b2 :: c2 :: d2 :: r3 =>
    if s1 = '\\' ∧ s2 = 'u' then
      match hex4 a2 b2 c2 d2 with
      | none => none
      | some m =>
        if 0xDC00 ≤ m ∧ m ≤ 0xDFFF then
          some (Char.ofNat ((n - 0xD800) * 0x400 + (m - 0xDC00) + 0x10000), r3)
        else none
    else none
  | _ => none

/-- A `\uXXXX` escape after `\u`, in CPython `py_scanstring`: four hex
digits, combined with a following low surrogate when they read as a high
surrogate. -/
def decodeU : List Char → Option (Char × List Char)
  | a :: b :: c :: d :: r =>
    match hex4 a b c d with
    | none => none
    | some n =>
      if n < 0xD800 ∨ 0xDFFF < n then some (Char.ofNat n, r)
      else if n < 0xDC00 then decodeLow n r
      else none
  | _ => none

/-- The escape dispatch of `py_scanstring` after a backslash. -/
def decodeEsc : List Char → Option (Char × List Char)
  | [] => none
  | e :: r =>
    if e = '"' then some ('"', r)
    else if e = '\\' then some ('\\', r)
    else if e = '/' then some ('/', r)
    else if e = 'b' then some ('\x08', r)
    else if e = 'f' then some ('\x0c', r)
    else if e = 'n' then some ('\n', r)
    else if e = 'r' then some ('\r', r)
    else if e = 't' then some ('\t', r)
    else if e = 'u' then decodeU r
    else none

/-- `py_scanstring`: the body of a JSON string after the opening quote,
yielding the decoded characters and the input past the closing quote.
Unescaped control characters are rejected (strict mode, the default).
The fuel is a modelling artifact: every step consumes at least one input
character, so any fuel above the input length behaves like the
unbounded CPython loop. -/
def parseStrBody : Nat → List Char → Option (List Char × List Char)
  | 0, _ => none
  | fuel + 1, s =>
    match s with
    | [] => none
    | c :: rest =>
      if c = '"' then some ([], rest)
      else if c = '\\' then
        match decodeEsc rest with
        | none => none
        | some (x, r) => consFst x (parseStrBody fuel r)
      else if c.toNat < 0x20 then none
      else consFst c (parseStrBody fuel rest)

def isDigitCh (c : Char) : Bool := 48 ≤ c.toNat ∧ c.toNat ≤ 57

def parseDigits : List Char → Nat → Nat × List Char
  | [], acc => (acc, [])
  | c :: cs, acc =>
    if isDigitCh c then parseDigits cs (acc * 10 + (c.toNat - 48)) else (acc, c :: cs)

def headIsDigit : List Char → Bool
  | [] => false
  | c :: _ => isDigitCh c

def headIsFloatCue : List Char → Bool
  | [] => false
  | c :: _ => c = '.' ∨ c = 'e' ∨ c = 'E'

def headIs (x : Char) : List Char → Bool
  | [] => false
  | c :: _ => c = x

/-- The unsigned integer fragment of the decoder's number grammar (the
sign is the caller's). A leading zero may not be followed by more
digits; a following `.`/`e`/`E` would start a float literal, which is
outside this embedding's (integer-only) JSON domain. -/
def parseNum (s : List Char) : Option (Nat × List Char) :=
  match s with
  | [] => none
  | c :: cs =>
    if ¬ isDigitCh c then none
    else if c = '0' ∧ headIsDigit cs then none
    else
      let p := parseDigits cs (c.toNat - 48)
      if headIsFloatCue p.2 then none else some p

def stripPre : List Char → List Char → Option (List Char)
  | [], s => some s
  | _ :: _, [] => none
  | l :: ls, c :: cs => if c = l then stripPre ls cs else none

/-- Duplicate object keys overwrite in place, as in the Python dict the
decoder builds; insertion order is otherwise preserved. -/
def dictAdd (acc : List (String × JVal)) (k : String) (v : JVal) :
    List (String × JVal) :=
  if acc.any (fun kv => kv.1 == k) then
    acc.map (fun kv => if kv.1 == k then (k, v) else kv)
  else acc ++ [(k, v)]

def dictFold (pairs : List (String × JVal)) : List (String × JVal) :=
  pairs.foldl (fun acc kv => dictAdd acc kv.1 kv.2) []

mutual
/-- The `json.load` value scanner (`scan_once`), fuelled: CPython bounds
the recursion by the interpreter recursion limit instead. -/
def parseVal : Nat → List Char → Option (JVal × List Char)
  | 0, _ => none
  | fuel + 1, s =>
    match skipWs s with
    | [] => none
    | c :: cs =>
      if isDigitCh c then
        match parseNum (c :: cs) with
        | some p => some (.jint (p.1 : Int), p.2)
        | none => none
      else if c = '-' then
        match parseNum cs with
        | some p => some (.jint (-(p.1 : Int)), p.2)
        | none => none
      else if c = '"' then
        match parseStrBody (cs.length + 1) cs with
        | some p => some (.jstr ⟨p.1⟩, p.2)
        | none => none
      else if c = 'n' then
        match stripPre "ull".data cs with
        | some r => some (.jnull, r)
        | none => none
      else if c = 't' then
        match stripPre "rue".data cs with
        | some r => some (.jbool true, r)
        | none => none
      else if c = 'f' then
        match stripPre "alse".data cs with
        | some r => some (.jbool false, r)
        | none => none
      else if c = '[' then
        let t := skipWs cs
        if headIs ']' t then some (.jarr [], t.tail)
        else
          match parseElems fuel cs with
          | some p => some (.jarr p.1, p.2)
          | none => none
      else if c = '{' then
        let t := skipWs cs
        if headIs '}' t then some (.jobj [], t.tail)
        else
          match parseMembers fuel cs with
          | some p => some (.jobj (dictFold p.1), p.2)
          | none => none
      else none

/-- Comma-separated array elements up to the closing bracket. -/
def parseElems : Nat → List Char → Option (List JVal × List Char)
  | 0, _ => none
  | fuel + 1, s =>
    match parseVal fuel s with
    | none => none
    | some (v, r) =>
      let t := skipWs r
      if headIs ',' t then
        match parseElems fuel t.tail with
        | some p => some (v :: p.1, p.2)
        | none => none
      else if headIs ']' t then some ([v], t.tail)
      else none

/-- Comma-separated `"key": value` members up to the closing brace. -/
def parseMembers : Nat → List Char → Option (List (String × JVal) × List Char)
  | 0, _ => none
  | fuel + 1, s =>
    let t := skipWs s
    if headIs '"' t then
      match parseStrBody (t.tail.length + 1) t.tail with
      | none => none
      | some (k, r) =>
        let t2 := skipWs r
        if headIs ':' t2 then
          match parseVal fuel t2.tail with
          | none => none
          | some (v, r2) =>
            let t3 := skipWs r2
            if headIs ',' t3 then
              match parseMembers fuel t3.tail with
              | some p => some ((⟨k⟩, v) :: p.1, p.2)
              | none => none
            else if headIs '}' t3 then some ([(⟨k⟩, v)], t3.tail)
            else none
        else none
    else none
end

/-- `json.load` of a whole document: one value, then only whitespace may
remain. The fuel `2 * length + 2` dominates the recursion depth of any
parse (every two nested scanner calls consume at least one character). -/
def loads (s : String) : Option JVal :=
  match parseVal (2 * s.data.length + 2) s.data with
  | some (v, rest) => if skipWs rest = [] then some v else none
  | none => none

/-! ### `write_json` / `read_json` (src/main.py lines 19-42) -/

/-- The file-system boundary: contents per path, plus the I/O oracle
saying whether opening the path for writing, or reading an existing
file, raises — and with which exception message. -/
structure FS where
  files : String → Option String
  writeErr : String → Option String
  readErr : String → Option String

/-- `write_json` (lines 19-27): `json.dump(data, f, indent=2,
ensure_ascii=False)` under a `try/except` that stringifies any raised
exception. `data` is a Python dict, an ordered `List (String × JVal)`
here; every such value is serializable. Returns the result string and
the file system after the call. -/
def write_json (fs : FS) (filepath : String) (data : List (String × JVal)) :
    String × FS :=
  match fs.writeErr filepath with
  | some e => ("❌ Error writing JSON: " ++ e, fs)
  | none =>
    ("✅ Successfully written " ++ pyStrN data.length ++ " top-level keys to " ++ filepath,
     ⟨fun q => if q = filepath then some (dumpsPretty (.jobj data)) else fs.files q,
      fs.writeErr, fs.readErr⟩)

/-- `read_json` (lines 30-42): open, `json.load`, and return
`json.dumps(data, indent=2)`, under `try/except FileNotFoundError /
json.JSONDecodeError / Exception`. -/
def read_json (fs : FS) (filepath : String) : String :=
  match fs.files filepath with
  | none => "❌ Error: File '" ++ filepath ++ "' not found"
  | some content =>
    match fs.readErr filepath with
    | some e => "❌ Error reading JSON: " ++ e
    | none =>
      match loads content with
      | none => "❌ Error: Invalid JSON in file '" ++ filepath ++ "'"
      | some v => dumpsAscii v

/-! ### Decoder lemmas: whitespace, literals, digits -/

/-- Every character of the list is JSON whitespace. -/
def allWs (l : List Char) : Prop := ∀ c ∈ l, jsonWs c = true

/-- The input after a serialized value never continues with a digit or a
float cue: this is what keeps number parses from absorbing it. -/
def numBoundary (r : List Char) : Prop :=
  headIsDigit r = false ∧ headIsFloatCue r = false

theorem skipWs_ws_append (ws t : List Char) (h : allWs ws) :
    skipWs (ws ++ t) = skipWs t := by
  induction ws with
  | nil => rfl
  | cons c cs ih =>
    have hc : jsonWs c = true := h c (by simp)
    simp only [List.cons_append, skipWs, hc, if_pos]
    exact ih fun x hx => h x (by simp [hx])

theorem skipWs_cons_not {c : Char} (t : List Char) (h : jsonWs c = false) :
    skipWs (c :: t) = c :: t := by
  simp [skipWs, h]

theorem allWs_indentC (d : Nat) : allWs (indentC d) := by
  intro c hc
  rw [indentC, List.mem_replicate] at hc
  simp [hc.2, jsonWs]

theorem allWs_nl_indentC (d : Nat) : allWs ('\n' :: indentC d) := by
  intro c hc
  rcases List.mem_cons.mp hc with h | h
  · simp [h, jsonWs]
  · exact allWs_indentC d c h

theorem stripPre_append (l s : List Char) : stripPre l (l ++ s) = some s := by
  induction l with
  | nil => rfl
  | cons c cs ih => simp [stripPre, ih]

theorem digitChar_toNat_lt10 : ∀ k, k < 10 → (Nat.digitChar k).toNat = 48 + k := by decide

theorem isDigitCh_digitChar : ∀ k, k < 10 → isDigitCh (Nat.digitChar k) = true := by decide

theorem digitChar_ne_zero : ∀ k, k < 10 → (0 < k → Nat.digitChar k ≠ '0') := by decide

theorem hexVal_digitChar : ∀ k, k < 16 → hexVal (Nat.digitChar k) = some k := by decide

theorem hex4_hex4Chars (n : Nat) (h : n < 0x10000) :
    (hex4 (Nat.digitChar (n / 4096 % 16)) (Nat.digitChar (n / 256 % 16))
      (Nat.digitChar (n / 16 % 16)) (Nat.digitChar (n % 16))) = some n := by
  rw [hex4, hexVal_digitChar _ (by omega), hexVal_digitChar _ (by omega),
    hexVal_digitChar _ (by omega), hexVal_digitChar _ (by omega)]
  have h16 : ((n / 4096 % 16 * 16 + n / 256 % 16) * 16 + n / 16 % 16) * 16 + n % 16 = n := by
    omega
  show some (((n / 4096 % 16 * 16 + n / 256 % 16) * 16 + n / 16 % 16) * 16 + n % 16) = some n
  rw [h16]

/-- The value a digit run accumulates, most significant first. -/
def digitsVal : List Char → Nat → Nat
  | [], acc => acc
  | c :: cs, acc => digitsVal cs (acc * 10 + (c.toNat - 48))

theorem parseDigits_digits (ds : List Char) (rest : List Char) (acc : Nat)
    (h : ∀ c ∈ ds, isDigitCh c = true) :
    parseDigits (ds ++ rest) acc = parseDigits rest (digitsVal ds acc) := by
  induction ds generalizing acc with
  | nil => rfl
  | cons c cs ih =>
    have hc : isDigitCh c = true := h c (by simp)
    simp only [List.cons_append, parseDigits, hc, if_pos, digitsVal]
    exact ih _ fun x hx => h x (by simp [hx])

theorem parseDigits_stop (rest : List Char) (acc : Nat) (h : headIsDigit rest = false) :
    parseDigits rest acc = (acc, rest) := by
  cases rest with
  | nil => rfl
  | cons c cs =>
    simp only [headIsDigit] at h
    simp [parseDigits, h]

theorem digitsVal_append (ds : List Char) (c : Char) (acc : Nat) :
    digitsVal (ds ++ [c]) acc = digitsVal ds acc * 10 + (c.toNat - 48) := by
  induction ds generalizing acc with
  | nil => rfl
  | cons d2 ds2 ih => simp [digitsVal, ih]

theorem natDigits_zero (fuel : Nat) : natDigits fuel 0 = [] := by
  cases fuel <;> simp [natDigits]

theorem natDigits_all_digits :
    ∀ fuel n, ∀ c ∈ natDigits fuel n, isDigitCh c = true := by
  intro fuel
  induction fuel with
  | zero => intro n c hc; simp [natDigits] at hc
  | succ f ih =>
    intro n c hc
    rw [natDigits] at hc
    by_cases hn : n = 0
    · simp [hn] at hc
    · rw [if_neg hn] at hc
      rcases List.mem_append.mp hc with h | h
      · exact ih _ c h
      · have : c = Nat.digitChar (n % 10) := by simpa using h
        rw [this]
        exact isDigitCh_digitChar _ (Nat.mod_lt _ (by omega))

theorem digitsVal_natDigits :
    ∀ fuel n acc, n ≤ fuel →
      digitsVal (natDigits fuel n) acc = acc * 10 ^ (natDigits fuel n).length + n := by
  intro fuel
  induction fuel with
  | zero => intro n acc h; interval_cases n; simp [natDigits, digitsVal]
  | succ f ih =>
    intro n acc h
    rw [natDigits]
    by_cases hn : n = 0
    · simp [hn, digitsVal]
    · rw [if_neg hn]
      have h10 : n / 10 ≤ f := by omega
      rw [digitsVal_append, ih _ acc h10, digitChar_toNat_lt10 _ (Nat.mod_lt _ (by omega))]
      have hd : 48 + n % 10 - 48 = n % 10 := by omega
      rw [hd, List.length_append, List.length_singleton, pow_succ]
      have := Nat.div_add_mod n 10
      ring_nf
      omega

theorem natDigits_head :
    ∀ fuel n, 0 < n → n ≤ fuel →
      ∃ c t, natDigits fuel n = c :: t ∧ isDigitCh c = true ∧ c ≠ '0' := by
  intro fuel
  induction fuel with
  | zero => intro n h1 h2; omega
  | succ f ih =>
    intro n h1 h2
    rw [natDigits, if_neg (by omega)]
    by_cases hlt : n < 10
    · have : n / 10 = 0 := by omega
      rw [this, natDigits_zero, List.nil_append]
      exact ⟨Nat.digitChar (n % 10), [], rfl,
        isDigitCh_digitChar _ (by omega),
        by rw [Nat.mod_eq_of_lt hlt]; exact digitChar_ne_zero _ hlt h1⟩
    · obtain ⟨c, t, heq, hd, hz⟩ := ih (n / 10) (by omega) (by omega)
      exact ⟨c, t ++ [Nat.digitChar (n % 10)], by rw [heq]; rfl, hd, hz⟩

theorem natRepr_all_digits (n : Nat) : ∀ c ∈ natRepr n, isDigitCh c = true := by
  intro c hc
  rw [natRepr] at hc
  by_cases hn : n = 0
  · simp [hn] at hc
    simp [hc, isDigitCh]
  · rw [if_neg hn] at hc
    exact natDigits_all_digits _ _ c hc

theorem natRepr_cons (n : Nat) :
    ∃ c t, natRepr n = c :: t ∧ isDigitCh c = true ∧ (n ≠ 0 → c ≠ '0') := by
  rw [natRepr]
  by_cases hn : n = 0
  · exact ⟨'0', [], by rw [if_pos hn], by simp [isDigitCh], by simp [hn]⟩
  · obtain ⟨c, t, heq, hd, hz⟩ := natDigits_head n n (by omega) le_rfl
    exact ⟨c, t, by rw [if_neg hn, heq], hd, fun _ => hz⟩

theorem parseNum_natRepr (n : Nat) (rest : List Char) (hb : numBoundary rest) :
    parseNum (natRepr n ++ rest) = some (n, rest) := by
  obtain ⟨c, t, heq, hd, hz⟩ := natRepr_cons n
  rw [heq]
  by_cases hn : n = 0
  · have hc : c = '0' ∧ t = [] := by
      rw [natRepr, if_pos hn] at heq
      exact ⟨(List.cons.injEq _ _ _ _ ▸ heq.symm).1, (List.cons.injEq _ _ _ _ ▸ heq.symm).2⟩
    rw [hc.1, hc.2]
    simp only [List.nil_append, List.cons_append, parseNum]
    rw [if_neg (by simp [isDigitCh]), if_neg (by simp [hb.1])]
    rw [parseDigits_stop rest _ hb.1]
    simp [hb.2, hn]
  · simp only [List.cons_append, parseNum]
    rw [if_neg (by simp [hd])]
    rw [if_neg (by simp [hz hn])]
    have hval : parseDigits (t ++ rest) (c.toNat - 48) = (n, rest) := by
      rw [parseDigits_digits t rest _ (fun x hx => natRepr_all_digits n x (by rw [heq]; simp [hx]))]
      rw [parseDigits_stop rest _ hb.1]
      have : digitsVal t (c.toNat - 48) = digitsVal (natRepr n) 0 := by
        rw [heq]; simp [digitsVal]
      rw [this, natRepr, if_neg hn, digitsVal_natDigits n n 0 le_rfl]
      simp
    rw [hval]
    simp [hb.2]

/-! ### Decoder lemmas: strings and escapes -/

theorem decodeU_bmp (n : Nat) (hn : n < 0x10000) (h : n < 0xD800 ∨ 0xDFFF < n)
    (r : List Char) :
    decodeU (hex4Chars n ++ r) = some (Char.ofNat n, r) := by
  simp only [hex4Chars, List.cons_append, List.nil_append]
  rw [decodeU, hex4_hex4Chars n hn]
  split
  next heq => exact absurd heq (by simp)
  next m heq =>
    rw [Option.some.injEq] at heq
    subst heq
    rw [if_pos h]

theorem decodeU_pair (n : Nat) (h1 : 0x10000 ≤ n) (h2 : n < 0x110000) (r : List Char) :
    decodeU (hex4Chars (0xD800 + (n - 0x10000) / 0x400) ++ '\\' :: 'u' ::
      hex4Chars (0xDC00 + (n - 0x10000) % 0x400) ++ r) = some (Char.ofNat n, r) := by
  simp only [hex4Chars, List.cons_append, List.nil_append]
  rw [decodeU, hex4_hex4Chars _ (by omega : 0xD800 + (n - 0x10000) / 0x400 < 0x10000)]
  split
  next heq => exact absurd heq (by simp)
  next m heq =>
    rw [Option.some.injEq] at heq
    subst heq
    rw [if_neg (by omega), if_pos (by omega : 0xD800 + (n - 0x10000) / 0x400 < 0xDC00)]
    rw [decodeLow, if_pos ⟨rfl, rfl⟩,
      hex4_hex4Chars _ (by omega : 0xDC00 + (n - 0x10000) % 0x400 < 0x10000)]
    split
    next heq2 => exact absurd heq2 (by simp)
    next m2 heq2 =>
      rw [Option.some.injEq] at heq2
      subst heq2
      rw [if_pos (by omega : 0xDC00 ≤ 0xDC00 + (n - 0x10000) % 0x400 ∧
        0xDC00 + (n - 0x10000) % 0x400 ≤ 0xDFFF)]
      have hval : (0xD800 + (n - 0x10000) / 0x400 - 0xD800) * 0x400 +
          (0xDC00 + (n - 0x10000) % 0x400 - 0xDC00) + 0x10000 = n := by omega
      rw [hval]

theorem parseStrBody_quote (fuel : Nat) (rest : List Char) :
    parseStrBody (fuel + 1) ('"' :: rest) = some ([], rest) := by
  rw [parseStrBody]
  simp

theorem parseStrBody_esc (fuel : Nat) (rest : List Char) :
    parseStrBody (fuel + 1) ('\\' :: rest) =
      match decodeEsc rest with
      | none => none
      | some (x, r) => consFst x (parseStrBody fuel r) := by
  rw [parseStrBody]
  simp

theorem parseStrBody_plain (fuel : Nat) {c : Char} (rest : List Char)
    (h1 : ¬ c = '"') (h2 : ¬ c = '\\') (h3 : ¬ c.toNat < 0x20) :
    parseStrBody (fuel + 1) (c :: rest) = consFst c (parseStrBody fuel rest) := by
  rw [parseStrBody]
  simp [h1, h2, h3]

theorem decodeEsc_u (r : List Char) : decodeEsc ('u' :: r) = decodeU r := by
  rw [decodeEsc]
  simp

/-- The contract a character escaping must meet for string round trips:
escapes are nonempty, and parsing one escaped character consumes exactly
it and continues. -/
def EscOk (esc : Char → List Char) : Prop :=
  (∀ c, esc c ≠ []) ∧
  ∀ c rest fuel, parseStrBody (fuel + 1) (esc c ++ rest) = consFst c (parseStrBody fuel rest)

theorem escCharF_ok : EscOk escCharF := by
  constructor
  · intro c
    rw [escCharF]
    split_ifs <;> simp
  · intro c rest fuel
    rw [escCharF]
    split_ifs with h1 h2 h3 h4 h5 h6 h7 h8
    · subst h1; rw [List.cons_append, List.cons_append, List.nil_append, parseStrBody_esc]
      rw [show decodeEsc ('"' :: rest) = some ('"', rest) by rw [decodeEsc]; simp]
    · subst h2; rw [List.cons_append, List.cons_append, List.nil_append, parseStrBody_esc]
      rw [show decodeEsc ('\\' :: rest) = some ('\\', rest) by rw [decodeEsc]; simp]
    · subst h3; rw [List.cons_append, List.cons_append, List.nil_append, parseStrBody_esc]
      rw [show decodeEsc ('n' :: rest) = some ('\n', rest) by rw [decodeEsc]; simp]
    · subst h4; rw [List.cons_append, List.cons_append, List.nil_append, parseStrBody_esc]
      rw [show decodeEsc ('t' :: rest) = some ('\t', rest) by rw [decodeEsc]; simp]
    · subst h5; rw [List.cons_append, List.cons_append, List.nil_append, parseStrBody_esc]
      rw [show decodeEsc ('r' :: rest) = some ('\r', rest) by rw [decodeEsc]; simp]
    · subst h6; rw [List.cons_append, List.cons_append, List.nil_append, parseStrBody_esc]
      rw [show decodeEsc ('b' :: rest) = some ('\x08', rest) by rw [decodeEsc]; simp]
    · subst h7; rw [List.cons_append, List.cons_append, List.nil_append, parseStrBody_esc]
      rw [show decodeEsc ('f' :: rest) = some ('\x0c', rest) by rw [decodeEsc]; simp]
    · rw [List.cons_append, List.cons_append, parseStrBody_esc, decodeEsc_u,
        decodeU_bmp c.toNat (by omega) (Or.inl (by omega)) rest, Char.ofNat_toNat]
    · rw [List.singleton_append, parseStrBody_plain fuel rest h1 h2 h8]

theorem char_toNat_valid (c : Char) :
    c.toNat < 0xD800 ∨ (0xDFFF < c.toNat ∧ c.toNat < 0x110000) := c.valid

theorem escCharT_ok : EscOk escCharT := by
  constructor
  · intro c
    rw [escCharT]
    split_ifs with h1 h2
    · exact escCharF_ok.1 c
    · simp
    · simp
  · intro c rest fuel
    rw [escCharT]
    split_ifs with h1 h2
    · exact escCharF_ok.2 c rest fuel
    · have hcond : c.toNat < 0xD800 ∨ 0xDFFF < c.toNat := by
        rcases char_toNat_valid c with h | h
        · exact Or.inl h
        · exact Or.inr h.1
      rw [List.cons_append, List.cons_append, parseStrBody_esc, decodeEsc_u,
        decodeU_bmp c.toNat (by omega) hcond rest, Char.ofNat_toNat]
    · have hub : c.toNat < 0x110000 := by
        rcases char_toNat_valid c with h | h <;> omega
      simp only [List.cons_append, List.append_assoc]
      rw [parseStrBody_esc, decodeEsc_u]
      have hre : hex4Chars (0xD800 + (c.toNat - 0x10000) / 0x400) ++
          '\\' :: 'u' :: (hex4Chars (0xDC00 + (c.toNat - 0x10000) % 0x400) ++ rest) =
          hex4Chars (0xD800 + (c.toNat - 0x10000) / 0x400) ++ '\\' :: 'u' ::
            hex4Chars (0xDC00 + (c.toNat - 0x10000) % 0x400) ++ rest := by
        simp [List.append_assoc]
      rw [hre, decodeU_pair c.toNat (by omega) hub rest, Char.ofNat_toNat]

theorem strBody_rt {esc : Char → List Char} (hesc : EscOk esc) :
    ∀ (s rest : List Char) (fuel : Nat), s.length < fuel →
      parseStrBody fuel (s.flatMap esc ++ '"' :: rest) = some (s, rest) := by
  intro s
  induction s with
  | nil =>
    intro rest fuel h
    cases fuel with
    | zero => omega
    | succ f => simpa using parseStrBody_quote f rest
  | cons c cs ih =>
    intro rest fuel h
    cases fuel with
    | zero => omega
    | succ f =>
      rw [List.flatMap_cons, List.append_assoc, hesc.2 c _ f,
        ih rest f (by simpa using Nat.lt_of_succ_lt_succ h)]
      rfl

theorem length_le_flatMap {esc : Char → List Char} (h : ∀ c, esc c ≠ []) (s : List Char) :
    s.length ≤ (s.flatMap esc).length := by
  induction s with
  | nil => simp
  | cons c cs ih =>
    rw [List.flatMap_cons, List.length_append, List.length_cons]
    have : 0 < (esc c).length := List.length_pos.mpr (h c)
    omega

/-! ### Decoder lemmas: value dispatch -/

theorem isDigitCh_toNat {c : Char} (h : isDigitCh c = true) :
    48 ≤ c.toNat ∧ c.toNat ≤ 57 := by
  simpa [isDigitCh] using h

theorem char_ne_of_toNat {c x : Char} (h : c.toNat ≠ x.toNat) : c ≠ x :=
  fun he => h (he ▸ rfl)

/-- The first character of a serialized value: not whitespace, not a
closing bracket. -/
def goodStart : List Char → Prop
  | [] => False
  | c :: _ => jsonWs c = false ∧ c ≠ ']' ∧ c ≠ '}'

theorem digit_goodStart {c : Char} (h : isDigitCh c = true) (t : List Char) :
    goodStart (c :: t) := by
  have hb := isDigitCh_toNat h
  refine ⟨?_, ?_, ?_⟩
  · rw [jsonWs]
    apply decide_eq_false
    rintro (rfl | rfl | rfl | rfl) <;> revert hb <;> decide
  · exact char_ne_of_toNat (by rw [show (']').toNat = 93 from rfl]; omega)
  · exact char_ne_of_toNat (by rw [show ('}').toNat = 125 from rfl]; omega)

theorem natRepr_goodStart (n : Nat) : ∃ c t, natRepr n = c :: t ∧ goodStart (c :: t) := by
  obtain ⟨c, t, heq, hd, _⟩ := natRepr_cons n
  exact ⟨c, t, heq, digit_goodStart hd t⟩

theorem serVal_goodStart (esc : Char → List Char) (d : Nat) (v : JVal) :
    ∃ c t, serVal esc d v = c :: t ∧ goodStart (c :: t) := by
  cases v with
  | jnull => exact ⟨'n', "ull".data, rfl, by decide, by decide, by decide⟩
  | jbool b =>
    cases b with
    | true => exact ⟨'t', "rue".data, rfl, by decide, by decide, by decide⟩
    | false => exact ⟨'f', "alse".data, rfl, by decide, by decide, by decide⟩
  | jint n =>
    cases n with
    | ofNat m =>
      obtain ⟨c, t, heq, hg⟩ := natRepr_goodStart m
      exact ⟨c, t, heq, hg⟩
    | negSucc m =>
      exact ⟨'-', natRepr (m + 1), rfl, by decide, by decide, by decide⟩
  | jstr s => exact ⟨'"', s.data.flatMap esc ++ ['"'], rfl, by decide, by decide, by decide⟩
  | jarr l =>
    cases l with
    | nil => exact ⟨'[', [']'], rfl, by decide, by decide, by decide⟩
    | cons x xs =>
      exact ⟨'[', '\n' :: indentC (d + 1) ++ serVal esc (d + 1) x ++
        serElems esc (d + 1) xs ++ '\n' :: indentC d ++ [']'], rfl,
        by decide, by decide, by decide⟩
  | jobj kvs =>
    cases kvs with
    | nil => exact ⟨'{', ['}'], rfl, by decide, by decide, by decide⟩
    | cons kv kvs =>
      exact ⟨'{', '\n' :: indentC (d + 1) ++
        ('"' :: kv.1.data.flatMap esc ++ '"' :: ':' :: ' ' :: serVal esc (d + 1) kv.2) ++
        serMembers esc (d + 1) kvs ++ '\n' :: indentC d ++ ['}'], rfl,
        by decide, by decide, by decide⟩

theorem skipWs_goodStart {l : List Char} (rest : List Char) (h : goodStart l) :
    skipWs (l ++ rest) = l ++ rest := by
  cases l with
  | nil => exact absurd h (by simp [goodStart])
  | cons c t =>
    rw [List.cons_append]
    exact skipWs_cons_not _ h.1

theorem headIs_append_closing {l : List Char} (x : Char) (rest : List Char)
    (h : goodStart l) (hx : x = ']' ∨ x = '}') : headIs x (l ++ rest) = false := by
  cases l with
  | nil => exact absurd h (by simp [goodStart])
  | cons c t =>
    rw [List.cons_append, headIs]
    rcases hx with rfl | rfl
    · simp [h.2.1]
    · simp [h.2.2]

theorem parseVal_digit {s : List Char} {c : Char} {cs : List Char} (fuel : Nat)
    (hs : skipWs s = c :: cs) (hd : isDigitCh c = true) :
    parseVal (fuel + 1) s =
      match parseNum (c :: cs) with
      | some p => some (.jint (p.1 : Int), p.2)
      | none => none := by
  rw [parseVal, hs]
  simp [hd]

theorem parseVal_neg {s : List Char} {cs : List Char} (fuel : Nat)
    (hs : skipWs s = '-' :: cs) :
    parseVal (fuel + 1) s =
      match parseNum cs with
      | some p => some (.jint (-(p.1 : Int)), p.2)
      | none => none := by
  rw [parseVal, hs]
  simp [show isDigitCh '-' = false from rfl]

theorem parseVal_str {s : List Char} {cs : List Char} (fuel : Nat)
    (hs : skipWs s = '"' :: cs) :
    parseVal (fuel + 1) s =
      match parseStrBody (cs.length + 1) cs with
      | some p => some (.jstr ⟨p.1⟩, p.2)
      | none => none := by
  rw [parseVal, hs]
  simp [show isDigitCh '"' = false from rfl]

theorem parseVal_null {s : List Char} {cs : List Char} (fuel : Nat)
    (hs : skipWs s = 'n' :: cs) :
    parseVal (fuel + 1) s =
      match stripPre "ull".data cs with
      | some r => some (.jnull, r)
      | none => none := by
  rw [parseVal, hs]
  simp [show isDigitCh 'n' = false from rfl]

theorem parseVal_true {s : List Char} {cs : List Char} (fuel : Nat)
    (hs : skipWs s = 't' :: cs) :
    parseVal (fuel + 1) s =
      match stripPre "rue".data cs with
      | some r => some (.jbool true, r)
      | none => none := by
  rw [parseVal, hs]
  simp [show isDigitCh 't' = false from rfl]

theorem parseVal_false {s : List Char} {cs : List Char} (fuel : Nat)
    (hs : skipWs s = 'f' :: cs) :
    parseVal (fuel + 1) s =
      match stripPre "alse".data cs with
      | some r => some (.jbool false, r)
      | none => none := by
  rw [parseVal, hs]
  simp [show isDigitCh 'f' = false from rfl]

theorem parseVal_arr {s : List Char} {cs : List Char} (fuel : Nat)
    (hs : skipWs s = '[' :: cs) :
    parseVal (fuel + 1) s =
      if headIs ']' (skipWs cs) then some (.jarr [], (skipWs cs).tail)
      else
        match parseElems fuel cs with
        | some p => some (.jarr p.1, p.2)
        | none => none := by
  rw [parseVal, hs]
  simp [show isDigitCh '[' = false from rfl]

theorem parseVal_obj {s : List Char} {cs : List Char} (fuel : Nat)
    (hs : skipWs s = '{' :: cs) :
    parseVal (fuel + 1) s =
      if headIs '}' (skipWs cs) then some (.jobj [], (skipWs cs).tail)
      else
        match parseMembers fuel cs with
        | some p => some (.jobj (dictFold p.1), p.2)
        | none => none := by
  rw [parseVal, hs]
  simp [show isDigitCh '{' = false from rfl]

/-! ### Sizes and well-formed keys -/

mutual
/-- Fuel measure for the scanner: enough fuel to parse the value back. -/
def fsizeV : JVal → Nat
  | .jnull => 1
  | .jbool _ => 1
  | .jint _ => 1
  | .jstr _ => 1
  | .jarr l => 1 + fsizeL l
  | .jobj kvs => 1 + fsizeM kvs

def fsizeL : List JVal → Nat
  | [] => 1
  | x :: xs => 1 + fsizeV x + fsizeL xs

def fsizeM : List (String × JVal) → Nat
  | [] => 1
  | kv :: kvs => 1 + fsizeV kv.2 + fsizeM kvs
end

/-- The keys of an object's member list are pairwise distinct (a Python
dict cannot hold a duplicate key). -/
def freshKeys : List (String × JVal) → Bool
  | [] => true
  | kv :: kvs => !(kvs.any (fun kv2 => kv2.1 == kv.1)) && freshKeys kvs

mutual
/-- Every object inside the value has pairwise distinct keys: exactly
the values that arise from Python data. -/
def goodKeys : JVal → Bool
  | .jnull => true
  | .jbool _ => true
  | .jint _ => true
  | .jstr _ => true
  | .jarr l => goodKeysL l
  | .jobj kvs => freshKeys kvs && goodKeysM kvs

def goodKeysL : List JVal → Bool
  | [] => true
  | x :: xs => goodKeys x && goodKeysL xs

def goodKeysM : List (String × JVal) → Bool
  | [] => true
  | kv :: kvs => goodKeys kv.2 && goodKeysM kvs
end

theorem dictAdd_fresh {acc : List (String × JVal)} {k : String} (v : JVal)
    (h : acc.any (fun kv => kv.1 == k) = false) : dictAdd acc k v = acc ++ [(k, v)] := by
  rw [dictAdd, if_neg]
  simp [h]

theorem foldl_dictAdd_fresh :
    ∀ (pairs acc : List (String × JVal)), freshKeys pairs = true →
      (∀ kv ∈ pairs, acc.any (fun kv2 => kv2.1 == kv.1) = false) →
      pairs.foldl (fun acc kv => dictAdd acc kv.1 kv.2) acc = acc ++ pairs := by
  intro pairs
  induction pairs with
  | nil => intro acc _ _; simp
  | cons kv kvs ih =>
    intro acc hf hacc
    rw [freshKeys, Bool.and_eq_true] at hf
    rw [List.foldl_cons, dictAdd_fresh kv.2 (hacc kv (by simp))]
    rw [ih (acc ++ [(kv.1, kv.2)]) hf.2 ?_]
    · simp
    · intro kv2 hkv2
      rw [List.any_append]
      simp only [Bool.or_eq_false_iff]
      refine ⟨hacc kv2 (by simp [hkv2]), ?_⟩
      simp only [List.any_cons, List.any_nil, Bool.or_false]
      have hne : kv2.1 ≠ kv.1 := by
        have h1 := hf.1
        simp only [Bool.not_eq_true'] at h1
        have h2 := List.any_eq_false.mp h1 kv2 hkv2
        simpa using h2
      exact beq_eq_false_iff_ne.mpr fun he => hne he.symm

theorem dictFold_fresh {pairs : List (String × JVal)} (hf : freshKeys pairs = true) :
    dictFold pairs = pairs := by
  rw [dictFold, foldl_dictAdd_fresh pairs [] hf (by simp)]
  simp

theorem fsizeV_pos (v : JVal) : 1 ≤ fsizeV v := by
  cases v <;> simp [fsizeV]

theorem fsizeL_pos (l : List JVal) : 1 ≤ fsizeL l := by
  cases l <;> simp [fsizeL] <;> omega

theorem fsizeM_pos (kvs : List (String × JVal)) : 1 ≤ fsizeM kvs := by
  cases kvs <;> simp [fsizeM] <;> omega

theorem numBoundary_nl (z : List Char) : numBoundary ('\n' :: z) := by
  exact ⟨rfl, rfl⟩

theorem numBoundary_comma (z : List Char) : numBoundary (',' :: z) := by
  exact ⟨rfl, rfl⟩

theorem numBoundary_serElems (esc : Char → List Char) (d : Nat) (xs : List JVal)
    (z : List Char) : numBoundary (serElems esc d xs ++ '\n' :: z) := by
  cases xs with
  | nil => simpa [serElems] using numBoundary_nl z
  | cons y ys => exact numBoundary_comma _

theorem numBoundary_serMembers (esc : Char → List Char) (d : Nat)
    (kvs : List (String × JVal)) (z : List Char) :
    numBoundary (serMembers esc d kvs ++ '\n' :: z) := by
  cases kvs with
  | nil => simpa [serMembers] using numBoundary_nl z
  | cons kv kvs => exact numBoundary_comma _

theorem skipWs_ser (esc : Char → List Char) (d : Nat) (v : JVal) (ws rest : List Char)
    (hws : allWs ws) :
    skipWs (ws ++ (serVal esc d v ++ rest)) = serVal esc d v ++ rest := by
  rw [skipWs_ws_append _ _ hws]
  obtain ⟨c, t, hser, hgs⟩ := serVal_goodStart esc d v
  rw [hser]
  exact skipWs_goodStart rest hgs

theorem parseVal_ser_null (esc : Char → List Char) (fuel d : Nat) (ws rest : List Char)
    (hws : allWs ws) :
    parseVal (fuel + 1) (ws ++ (serVal esc d .jnull ++ rest)) = some (.jnull, rest) := by
  have hs : skipWs (ws ++ (serVal esc d .jnull ++ rest)) = 'n' :: ("ull".data ++ rest) :=
    skipWs_ser esc d _ ws rest hws
  rw [parseVal_null fuel hs, stripPre_append]

theorem parseVal_ser_bool (esc : Char → List Char) (fuel d : Nat) (b : Bool)
    (ws rest : List Char) (hws : allWs ws) :
    parseVal (fuel + 1) (ws ++ (serVal esc d (.jbool b) ++ rest)) = some (.jbool b, rest) := by
  cases b with
  | true =>
    have hs : skipWs (ws ++ (serVal esc d (.jbool true) ++ rest)) =
        't' :: ("rue".data ++ rest) := skipWs_ser esc d _ ws rest hws
    rw [parseVal_true fuel hs, stripPre_append]
  | false =>
    have hs : skipWs (ws ++ (serVal esc d (.jbool false) ++ rest)) =
        'f' :: ("alse".data ++ rest) := skipWs_ser esc d _ ws rest hws
    rw [parseVal_false fuel hs, stripPre_append]

theorem parseVal_ser_int (esc : Char → List Char) (fuel d : Nat) (n : Int)
    (ws rest : List Char) (hws : allWs ws) (hb : numBoundary rest) :
    parseVal (fuel + 1) (ws ++ (serVal esc d (.jint n) ++ rest)) = some (.jint n, rest) := by
  have hs0 : skipWs (ws ++ (serVal esc d (.jint n) ++ rest)) = intRepr n ++ rest :=
    skipWs_ser esc d _ ws rest hws
  cases n with
  | ofNat m =>
    obtain ⟨c, t, heq, hd, _⟩ := natRepr_cons m
    have hs : skipWs (ws ++ (serVal esc d (.jint (.ofNat m)) ++ rest)) = c :: (t ++ rest) := by
      rw [hs0]
      show natRepr m ++ rest = c :: (t ++ rest)
      rw [heq, List.cons_append]
    rw [parseVal_digit fuel hs hd]
    have hback : c :: (t ++ rest) = natRepr m ++ rest := by rw [heq, List.cons_append]
    rw [hback, parseNum_natRepr m rest hb]
    rfl
  | negSucc m =>
    have hs : skipWs (ws ++ (serVal esc d (.jint (.negSucc m)) ++ rest)) =
        '-' :: (natRepr (m + 1) ++ rest) := by
      rw [hs0]
      rfl
    rw [parseVal_neg fuel hs, parseNum_natRepr (m + 1) rest hb]
    have hneg : (-((m : Int) + 1)) = Int.negSucc m := by
      rw [Int.negSucc_eq]
    show some (JVal.jint (-(((m + 1 : Nat) : Int))), rest) = some (.jint (.negSucc m), rest)
    rw [show (((m + 1 : Nat) : Int)) = (m : Int) + 1 by push_cast; ring, hneg]

theorem parseVal_ser_str {esc : Char → List Char} (hesc : EscOk esc) (fuel d : Nat)
    (s : String) (ws rest : List Char) (hws : allWs ws) :
    parseVal (fuel + 1) (ws ++ (serVal esc d (.jstr s) ++ rest)) = some (.jstr s, rest) := by
  have hs : skipWs (ws ++ (serVal esc d (.jstr s) ++ rest)) =
      '"' :: (s.data.flatMap esc ++ '"' :: rest) := by
    rw [skipWs_ser esc d _ ws rest hws]
    show ('"' :: (s.data.flatMap esc ++ ['"'])) ++ rest = _
    simp
  rw [parseVal_str fuel hs]
  have hlen : s.data.length < (s.data.flatMap esc ++ '"' :: rest).length + 1 := by
    rw [List.length_append]
    have := length_le_flatMap hesc.1 s.data
    omega
  rw [strBody_rt hesc s.data rest _ hlen]

theorem parseVal_ser_arrnil (esc : Char → List Char) (fuel d : Nat) (ws rest : List Char)
    (hws : allWs ws) :
    parseVal (fuel + 1) (ws ++ (serVal esc d (.jarr []) ++ rest)) = some (.jarr [], rest) := by
  have hs : skipWs (ws ++ (serVal esc d (.jarr []) ++ rest)) = '[' :: (']' :: rest) :=
    skipWs_ser esc d _ ws rest hws
  rw [parseVal_arr fuel hs, skipWs_cons_not _ (by rfl : jsonWs ']' = false)]
  simp [headIs]

theorem parseVal_ser_objnil (esc : Char → List Char) (fuel d : Nat) (ws rest : List Char)
    (hws : allWs ws) :
    parseVal (fuel + 1) (ws ++ (serVal esc d (.jobj []) ++ rest)) = some (.jobj [], rest) := by
  have hs : skipWs (ws ++ (serVal esc d (.jobj []) ++ rest)) = '{' :: ('}' :: rest) :=
    skipWs_ser esc d _ ws rest hws
  rw [parseVal_obj fuel hs, skipWs_cons_not _ (by rfl : jsonWs '}' = false)]
  simp [headIs]

theorem parseElems_step (fuel : Nat) {s r : List Char} {v : JVal}
    (hv : parseVal fuel s = some (v, r)) :
    parseElems (fuel + 1) s =
      (if headIs ',' (skipWs r) then
        match parseElems fuel (skipWs r).tail with
        | some p => some (v :: p.1, p.2)
        | none => none
      else if headIs ']' (skipWs r) then some ([v], (skipWs r).tail)
      else none) := by
  rw [parseElems, hv]

theorem parseMembers_step (fuel : Nat) {s kchars kb r : List Char}
    (hs : skipWs s = '"' :: kchars)
    (hk : parseStrBody (kchars.length + 1) kchars = some (kb, r)) :
    parseMembers (fuel + 1) s =
      (if headIs ':' (skipWs r) then
        match parseVal fuel (skipWs r).tail with
        | none => none
        | some (v, r2) =>
          if headIs ',' (skipWs r2) then
            match parseMembers fuel (skipWs r2).tail with
            | some p => some ((⟨kb⟩, v) :: p.1, p.2)
            | none => none
          else if headIs '}' (skipWs r2) then some ([(⟨kb⟩, v)], (skipWs r2).tail)
          else none
      else none) := by
  rw [parseMembers, hs]
  simp only [headIs, List.tail_cons]
  rw [if_pos (by decide), hk]

theorem parseMembers_step2 (fuel : Nat) {s kchars kb r rv r2 : List Char} {v : JVal}
    (hs : skipWs s = '"' :: kchars)
    (hk : parseStrBody (kchars.length + 1) kchars = some (kb, r))
    (hr : skipWs r = ':' :: rv)
    (hv : parseVal fuel rv = some (v, r2)) :
    parseMembers (fuel + 1) s =
      (if headIs ',' (skipWs r2) then
        match parseMembers fuel (skipWs r2).tail with
        | some p => some ((⟨kb⟩, v) :: p.1, p.2)
        | none => none
      else if headIs '}' (skipWs r2) then some ([(⟨kb⟩, v)], (skipWs r2).tail)
      else none) := by
  rw [parseMembers_step fuel hs hk, hr]
  simp only [headIs, List.tail_cons]
  rw [if_pos (by decide), hv]

theorem parse_ser_rt {esc : Char → List Char} (hesc : EscOk esc) :
    ∀ fuel : Nat,
      (∀ (v : JVal) (d : Nat) (ws rest : List Char), goodKeys v = true → allWs ws →
        numBoundary rest → fsizeV v ≤ fuel →
        parseVal fuel (ws ++ (serVal esc d v ++ rest)) = some (v, rest)) ∧
      (∀ (x : JVal) (xs : List JVal) (d : Nat) (ws rest : List Char),
        goodKeys x = true → goodKeysL xs = true → allWs ws → fsizeL (x :: xs) ≤ fuel →
        parseElems fuel (ws ++ (serVal esc (d + 1) x ++ (serElems esc (d + 1) xs ++
          ('\n' :: (indentC d ++ ']' :: rest))))) = some (x :: xs, rest)) ∧
      (∀ (kv : String × JVal) (kvs : List (String × JVal)) (d : Nat) (ws rest : List Char),
        goodKeys kv.2 = true → goodKeysM kvs = true → allWs ws → fsizeM (kv :: kvs) ≤ fuel →
        parseMembers fuel (ws ++ ('"' :: (kv.1.data.flatMap esc ++ '"' :: ':' :: ' ' ::
          (serVal esc (d + 1) kv.2 ++ (serMembers esc (d + 1) kvs ++
          ('\n' :: (indentC d ++ '}' :: rest))))))) = some (kv :: kvs, rest)) := by
  intro fuel
  induction fuel with
  | zero =>
    refine ⟨?_, ?_, ?_⟩
    · intro v _ _ _ _ _ _ hsz
      exact absurd hsz (by have := fsizeV_pos v; omega)
    · intro x xs _ _ _ _ _ _ hsz
      exact absurd hsz (by rw [fsizeL]; omega)
    · intro kv kvs _ _ _ _ _ _ hsz
      exact absurd hsz (by rw [fsizeM]; omega)
  | succ fuel ih =>
    obtain ⟨ihV, ihE, ihM⟩ := ih
    refine ⟨?_, ?_, ?_⟩
    · -- parseVal on a serialized value
      intro v d ws rest hgk hws hb hsz
      cases v with
      | jnull => exact parseVal_ser_null esc fuel d ws rest hws
      | jbool b => exact parseVal_ser_bool esc fuel d b ws rest hws
      | jint n => exact parseVal_ser_int esc fuel d n ws rest hws hb
      | jstr s => exact parseVal_ser_str hesc fuel d s ws rest hws
      | jarr l =>
        cases l with
        | nil => exact parseVal_ser_arrnil esc fuel d ws rest hws
        | cons x xs =>
          rw [goodKeys, goodKeysL, Bool.and_eq_true] at hgk
          rw [fsizeV] at hsz
          have hs : skipWs (ws ++ (serVal esc d (.jarr (x :: xs)) ++ rest)) =
              '[' :: ('\n' :: (indentC (d + 1) ++ (serVal esc (d + 1) x ++
                (serElems esc (d + 1) xs ++ ('\n' :: (indentC d ++ (']' :: rest))))))) := by
            rw [skipWs_ser esc d _ ws rest hws]
            simp [serVal, List.append_assoc]
          rw [parseVal_arr fuel hs]
          obtain ⟨c, t, hser, hgs⟩ := serVal_goodStart esc (d + 1) x
          have h2 : skipWs ('\n' :: (indentC (d + 1) ++ (serVal esc (d + 1) x ++
              (serElems esc (d + 1) xs ++ ('\n' :: (indentC d ++ (']' :: rest))))))) =
              serVal esc (d + 1) x ++
                (serElems esc (d + 1) xs ++ ('\n' :: (indentC d ++ (']' :: rest)))) := by
            have hws2 := skipWs_ws_append ('\n' :: indentC (d + 1))
              (serVal esc (d + 1) x ++
                (serElems esc (d + 1) xs ++ ('\n' :: (indentC d ++ (']' :: rest)))))
              (allWs_nl_indentC (d + 1))
            rw [List.cons_append] at hws2
            rw [hws2, hser]
            exact skipWs_goodStart _ hgs
          rw [if_neg ?_]
          · have happ : '\n' :: (indentC (d + 1) ++ (serVal esc (d + 1) x ++
                (serElems esc (d + 1) xs ++ ('\n' :: (indentC d ++ (']' :: rest)))))) =
                ('\n' :: indentC (d + 1)) ++ (serVal esc (d + 1) x ++
                  (serElems esc (d + 1) xs ++ ('\n' :: (indentC d ++ (']' :: rest))))) := by
              rw [List.cons_append]
            rw [happ, ihE x xs d ('\n' :: indentC (d + 1)) rest hgk.1 hgk.2
              (allWs_nl_indentC (d + 1)) (by omega)]
          · rw [h2, hser]
            have := headIs_append_closing (l := c :: t) ']'
              (serElems esc (d + 1) xs ++ ('\n' :: (indentC d ++ (']' :: rest)))) hgs
              (Or.inl rfl)
            simpa using this
      | jobj kvs =>
        cases kvs with
        | nil => exact parseVal_ser_objnil esc fuel d ws rest hws
        | cons kv kvs =>
          rw [goodKeys, Bool.and_eq_true] at hgk
          have hgm : goodKeys kv.2 = true ∧ goodKeysM kvs = true := by
            have := hgk.2
            rw [goodKeysM, Bool.and_eq_true] at this
            exact this
          rw [fsizeV] at hsz
          have hs : skipWs (ws ++ (serVal esc d (.jobj (kv :: kvs)) ++ rest)) =
              '{' :: ('\n' :: (indentC (d + 1) ++ ('"' :: (kv.1.data.flatMap esc ++
                '"' :: ':' :: ' ' :: (serVal esc (d + 1) kv.2 ++
                (serMembers esc (d + 1) kvs ++ ('\n' :: (indentC d ++ ('}' :: rest))))))))) := by
            rw [skipWs_ser esc d _ ws rest hws]
            simp [serVal, List.append_assoc]
          rw [parseVal_obj fuel hs]
          have h2 : skipWs ('\n' :: (indentC (d + 1) ++ ('"' :: (kv.1.data.flatMap esc ++
              '"' :: ':' :: ' ' :: (serVal esc (d + 1) kv.2 ++
              (serMembers esc (d + 1) kvs ++ ('\n' :: (indentC d ++ ('}' :: rest))))))))) =
              '"' :: (kv.1.data.flatMap esc ++
                '"' :: ':' :: ' ' :: (serVal esc (d + 1) kv.2 ++
                (serMembers esc (d + 1) kvs ++ ('\n' :: (indentC d ++ ('}' :: rest)))))) := by
            have hws2 := skipWs_ws_append ('\n' :: indentC (d + 1))
              ('"' :: (kv.1.data.flatMap esc ++ '"' :: ':' :: ' ' :: (serVal esc (d + 1) kv.2 ++
                (serMembers esc (d + 1) kvs ++ ('\n' :: (indentC d ++ ('}' :: rest)))))))
              (allWs_nl_indentC (d + 1))
            rw [List.cons_append] at hws2
            rw [hws2]
            exact skipWs_cons_not _ (by rfl)
          rw [if_neg ?_]
          · have happ : '\n' :: (indentC (d + 1) ++ ('"' :: (kv.1.data.flatMap esc ++
                '"' :: ':' :: ' ' :: (serVal esc (d + 1) kv.2 ++
                (serMembers esc (d + 1) kvs ++ ('\n' :: (indentC d ++ ('}' :: rest)))))))) =
                ('\n' :: indentC (d + 1)) ++ ('"' :: (kv.1.data.flatMap esc ++
                  '"' :: ':' :: ' ' :: (serVal esc (d + 1) kv.2 ++
                  (serMembers esc (d + 1) kvs ++ ('\n' :: (indentC d ++ ('}' :: rest))))))) := by
              rw [List.cons_append]
            rw [happ, ihM kv kvs d ('\n' :: indentC (d + 1)) rest hgm.1 hgm.2
              (allWs_nl_indentC (d + 1)) (by omega)]
            show some (JVal.jobj (dictFold (kv :: kvs)), rest) = some (.jobj (kv :: kvs), rest)
            rw [dictFold_fresh hgk.1]
          · rw [h2]
            simp [headIs]
    · -- parseElems on serialized elements
      intro x xs d ws rest hgx hgxs hws hsz
      have hv := ihV x (d + 1) ws
        (serElems esc (d + 1) xs ++ ('\n' :: (indentC d ++ ']' :: rest)))
        hgx hws (numBoundary_serElems esc (d + 1) xs _)
        (by rw [fsizeL] at hsz; omega)
      rw [parseElems_step fuel hv]
      cases xs with
      | nil =>
        have hr : serElems esc (d + 1) ([] : List JVal) ++
            ('\n' :: (indentC d ++ ']' :: rest)) = ('\n' :: indentC d) ++ (']' :: rest) := by
          simp [serElems]
        rw [hr, skipWs_ws_append _ _ (allWs_nl_indentC d), skipWs_cons_not _ (by rfl)]
        simp [headIs]
      | cons y ys =>
        rw [goodKeysL, Bool.and_eq_true] at hgxs
        have hr : serElems esc (d + 1) (y :: ys) ++ ('\n' :: (indentC d ++ ']' :: rest)) =
            ',' :: (('\n' :: indentC (d + 1)) ++ (serVal esc (d + 1) y ++
              (serElems esc (d + 1) ys ++ ('\n' :: (indentC d ++ ']' :: rest))))) := by
          simp [serElems, List.append_assoc]
        rw [hr, skipWs_cons_not _ (by rfl)]
        simp only [headIs, List.tail_cons]
        rw [if_pos (by decide)]
        rw [ihE y ys d ('\n' :: indentC (d + 1)) rest hgxs.1 hgxs.2 (allWs_nl_indentC (d + 1))
          (by rw [fsizeL, fsizeL] at hsz; have := fsizeV_pos x; rw [fsizeL]; omega)]
    · -- parseMembers on serialized members
      intro kv kvs d ws rest hgv hgm hws hsz
      have hs : skipWs (ws ++ ('"' :: (kv.1.data.flatMap esc ++ '"' :: ':' :: ' ' ::
          (serVal esc (d + 1) kv.2 ++ (serMembers esc (d + 1) kvs ++
          ('\n' :: (indentC d ++ '}' :: rest))))))) =
          '"' :: (kv.1.data.flatMap esc ++ '"' :: ':' :: ' ' ::
          (serVal esc (d + 1) kv.2 ++ (serMembers esc (d + 1) kvs ++
          ('\n' :: (indentC d ++ '}' :: rest))))) := by
        rw [skipWs_ws_append _ _ hws]
        exact skipWs_cons_not _ (by rfl)
      have hk : parseStrBody ((kv.1.data.flatMap esc ++ '"' :: ':' :: ' ' ::
          (serVal esc (d + 1) kv.2 ++ (serMembers esc (d + 1) kvs ++
          ('\n' :: (indentC d ++ '}' :: rest))))).length + 1)
          (kv.1.data.flatMap esc ++ '"' :: ':' :: ' ' ::
          (serVal esc (d + 1) kv.2 ++ (serMembers esc (d + 1) kvs ++
          ('\n' :: (indentC d ++ '}' :: rest))))) =
          some (kv.1.data, ':' :: ' ' ::
          (serVal esc (d + 1) kv.2 ++ (serMembers esc (d + 1) kvs ++
          ('\n' :: (indentC d ++ '}' :: rest))))) := by
        apply strBody_rt hesc
        rw [List.length_append]
        have := length_le_flatMap hesc.1 kv.1.data
        omega
      have hcolon : skipWs (':' :: ' ' :: (serVal esc (d + 1) kv.2 ++
          (serMembers esc (d + 1) kvs ++ ('\n' :: (indentC d ++ '}' :: rest))))) =
          ':' :: (' ' :: (serVal esc (d + 1) kv.2 ++ (serMembers esc (d + 1) kvs ++
          ('\n' :: (indentC d ++ '}' :: rest))))) :=
        skipWs_cons_not _ (by rfl)
      have hv : parseVal fuel (' ' :: (serVal esc (d + 1) kv.2 ++
          (serMembers esc (d + 1) kvs ++ ('\n' :: (indentC d ++ '}' :: rest))))) =
          some (kv.2, serMembers esc (d + 1) kvs ++ ('\n' :: (indentC d ++ '}' :: rest))) :=
        ihV kv.2 (d + 1) [' ']
          (serMembers esc (d + 1) kvs ++ ('\n' :: (indentC d ++ '}' :: rest)))
          hgv (by intro c hc; simp at hc; simp [hc, jsonWs])
          (numBoundary_serMembers esc (d + 1) kvs _)
          (by rw [fsizeM] at hsz; omega)
      rw [parseMembers_step2 fuel hs hk hcolon hv]
      cases kvs with
      | nil =>
        have hr : serMembers esc (d + 1) ([] : List (String × JVal)) ++
            ('\n' :: (indentC d ++ '}' :: rest)) = ('\n' :: indentC d) ++ ('}' :: rest) := by
          simp [serMembers]
        rw [hr, skipWs_ws_append _ _ (allWs_nl_indentC d), skipWs_cons_not _ (by rfl)]
        simp [headIs]
      | cons kv2 kvs2 =>
        rw [goodKeysM, Bool.and_eq_true] at hgm
        have hr : serMembers esc (d + 1) (kv2 :: kvs2) ++
            ('\n' :: (indentC d ++ '}' :: rest)) =
            ',' :: (('\n' :: indentC (d + 1)) ++ ('"' :: (kv2.1.data.flatMap esc ++
              '"' :: ':' :: ' ' :: (serVal esc (d + 1) kv2.2 ++
              (serMembers esc (d + 1) kvs2 ++ ('\n' :: (indentC d ++ '}' :: rest))))))) := by
          simp [serMembers, List.append_assoc]
        rw [hr, skipWs_cons_not _ (by rfl)]
        simp only [headIs, List.tail_cons]
        rw [if_pos (by decide)]
        rw [ihM kv2 kvs2 d ('\n' :: indentC (d + 1)) rest hgm.1 hgm.2
          (allWs_nl_indentC (d + 1))
          (by rw [fsizeM, fsizeM] at hsz; have := fsizeV_pos kv.2; rw [fsizeM]; omega)]

mutual
theorem fsizeV_le_ser (esc : Char → List Char) (d : Nat) (v : JVal) :
    fsizeV v ≤ 2 * (serVal esc d v).length := by
  cases v with
  | jnull => simp [fsizeV, serVal]
  | jbool b => cases b <;> simp [fsizeV, serVal]
  | jint n =>
    obtain ⟨c, t, hser, _⟩ := serVal_goodStart esc d (.jint n)
    rw [hser]
    simp [fsizeV]
    omega
  | jstr s =>
    obtain ⟨c, t, hser, _⟩ := serVal_goodStart esc d (.jstr s)
    rw [hser]
    simp [fsizeV]
    omega
  | jarr l =>
    cases l with
    | nil => simp [fsizeV, fsizeL, serVal]
    | cons x xs =>
      have h1 := fsizeV_le_ser esc (d + 1) x
      have h2 := fsizeL_le_ser esc (d + 1) xs
      rw [fsizeV, fsizeL, serVal]
      simp only [List.length_append, List.length_cons, indentC, List.length_replicate]
      omega
  | jobj kvs =>
    cases kvs with
    | nil => simp [fsizeV, fsizeM, serVal]
    | cons kv kvs =>
      have h1 := fsizeV_le_ser esc (d + 1) kv.2
      have h2 := fsizeM_le_ser esc (d + 1) kvs
      rw [fsizeV, fsizeM, serVal]
      simp only [List.length_append, List.length_cons, indentC, List.length_replicate]
      omega

theorem fsizeL_le_ser (esc : Char → List Char) (d : Nat) (l : List JVal) :
    fsizeL l ≤ 2 * (serElems esc d l).length + 2 := by
  cases l with
  | nil => simp [fsizeL]
  | cons x xs =>
    have h1 := fsizeV_le_ser esc d x
    have h2 := fsizeL_le_ser esc d xs
    rw [fsizeL, serElems]
    simp only [List.length_append, List.length_cons, indentC, List.length_replicate]
    omega

theorem fsizeM_le_ser (esc : Char → List Char) (d : Nat) (kvs : List (String × JVal)) :
    fsizeM kvs ≤ 2 * (serMembers esc d kvs).length + 2 := by
  cases kvs with
  | nil => simp [fsizeM]
  | cons kv kvs =>
    have h1 := fsizeV_le_ser esc d kv.2
    have h2 := fsizeM_le_ser esc d kvs
    rw [fsizeM, serMembers]
    simp only [List.length_append, List.length_cons, indentC, List.length_replicate]
    omega
end

/-- The central round trip: `json.load` inverts `json.dumps(…, indent=2)`
for every value whose objects have pairwise distinct keys, under either
character escaping. -/
theorem loads_dumps {esc : Char → List Char} (hesc : EscOk esc) (v : JVal)
    (hgk : goodKeys v = true) : loads ⟨serVal esc 0 v⟩ = some v := by
  rw [loads]
  have h1 := (parse_ser_rt hesc (2 * (serVal esc 0 v).length + 2)).1 v 0 [] [] hgk
    (by intro c hc; simp at hc) ⟨rfl, rfl⟩ (by have := fsizeV_le_ser esc 0 v; omega)
  rw [show (([] : List Char) ++ (serVal esc 0 v ++ [])) = serVal esc 0 v by simp] at h1
  have hdata : (⟨serVal esc 0 v⟩ : String).data = serVal esc 0 v := rfl
  rw [hdata, h1]
  rfl

/-! ### Claims about the JSON persistence adapter -/

/-- Claim C6: `write_json` never raises past its own boundary — it
always returns a string: on success the confirmation naming the number
of top-level keys of `data` and the path, and on any I/O or
serialization failure the error string naming the failure reason. -/
theorem claim_C6 (fs : FS) (filepath : String) (data : List (String × JVal)) :
    (fs.writeErr filepath = none →
      (write_json fs filepath data).1 =
        "✅ Successfully written " ++ pyStrN data.length ++ " top-level keys to " ++ filepath) ∧
    (∀ e, fs.writeErr filepath = some e →
      (write_json fs filepath data).1 = "❌ Error writing JSON: " ++ e) := by
  constructor
  · intro h
    rw [write_json, h]
  · intro e h
    rw [write_json, h]

theorem claim_C6_witness :
    (write_json ⟨fun _ => none, fun _ => none, fun _ => none⟩ "users.json"
        [("a", .jint 1)]).1 =
      "✅ Successfully written " ++ pyStrN 1 ++ " top-level keys to " ++ "users.json" :=
  (claim_C6 ⟨fun _ => none, fun _ => none, fun _ => none⟩ "users.json"
    [("a", .jint 1)]).1 rfl

theorem string_ne_of_get {s t : String} (i : Nat) {a b : Char}
    (hs : s.data[i]? = some a) (ht : t.data[i]? = some b) (hab : a ≠ b) :
    s ≠ t := by
  intro h
  rw [h] at hs
  rw [hs] at ht
  exact hab (Option.some.inj ht)

theorem data_getElem?_head {lit : String} (p suf : String) {i : Nat}
    (h : i < lit.data.length) :
    (lit ++ p ++ suf).data[i]? = lit.data[i]? := by
  rw [String.data_append, String.data_append]
  rw [List.getElem?_append_left (by rw [List.length_append]; omega),
    List.getElem?_append_left h]

theorem data_getElem?_head2 {lit : String} (p : String) {i : Nat}
    (h : i < lit.data.length) :
    (lit ++ p).data[i]? = lit.data[i]? := by
  rw [String.data_append, List.getElem?_append_left h]

/-- Claim C7: `read_json` distinguishes its three failure kinds — file
not found, malformed JSON content, other I/O errors — each with its own
message, and the three message families are pairwise distinct whatever
the path and reason. -/
theorem claim_C7 :
    (∀ (fs : FS) (p : String), fs.files p = none →
      read_json fs p = "❌ Error: File '" ++ p ++ "' not found") ∧
    (∀ (fs : FS) (p c e : String), fs.files p = some c → fs.readErr p = some e →
      read_json fs p = "❌ Error reading JSON: " ++ e) ∧
    (∀ (fs : FS) (p c : String), fs.files p = some c → fs.readErr p = none →
      loads c = none →
      read_json fs p = "❌ Error: Invalid JSON in file '" ++ p ++ "'") ∧
    (∀ p q : String,
      "❌ Error: File '" ++ p ++ "' not found" ≠
        "❌ Error: Invalid JSON in file '" ++ q ++ "'") ∧
    (∀ p e : String,
      "❌ Error: File '" ++ p ++ "' not found" ≠ "❌ Error reading JSON: " ++ e) ∧
    (∀ p e : String,
      "❌ Error: Invalid JSON in file '" ++ p ++ "'" ≠
        "❌ Error reading JSON: " ++ e) := by
  refine ⟨?_, ?_, ?_, ?_, ?_, ?_⟩
  · intro fs p h
    rw [read_json, h]
  · intro fs p c e hc he
    rw [read_json, hc, he]
  · intro fs p c hc he hl
    rw [read_json, hc, he]
    show (match loads c with
      | none => "❌ Error: Invalid JSON in file '" ++ p ++ "'"
      | some v => dumpsAscii v) = _
    rw [hl]
  · intro p q
    exact string_ne_of_get 9
      (by rw [data_getElem?_head p "' not found" (by decide)]; rfl)
      (by rw [data_getElem?_head q "'" (by decide)]; rfl)
      (by decide)
  · intro p e
    exact string_ne_of_get 7
      (by rw [data_getElem?_head p "' not found" (by decide)]; rfl)
      (by rw [data_getElem?_head2 e (by decide)]; rfl)
      (by decide)
  · intro p e
    exact string_ne_of_get 7
      (by rw [data_getElem?_head p "'" (by decide)]; rfl)
      (by rw [data_getElem?_head2 e (by decide)]; rfl)
      (by decide)

theorem claim_C7_witness :
    read_json ⟨fun _ => none, fun _ => none, fun _ => none⟩ "gone.json" =
      "❌ Error: File '" ++ "gone.json" ++ "' not found" :=
  claim_C7.1 ⟨fun _ => none, fun _ => none, fun _ => none⟩ "gone.json" rfl

/-- Claim C5: `write_json` then `read_json` on the same path round
trips: the file holds exactly the `indent=2, ensure_ascii=False`
serialization of the mapping, parsing it back yields a value equal to
the original — the ordered member list, so key insertion order is
preserved — and `read_json` succeeds, returning its `indent=2`
pretty-printing of that same value. -/
theorem claim_C5 (fs : FS) (filepath : String) (data : List (String × JVal))
    (hw : fs.writeErr filepath = none) (hr : fs.readErr filepath = none)
    (hk : goodKeys (.jobj data) = true) :
    (write_json fs filepath data).2.files filepath = some (dumpsPretty (.jobj data)) ∧
    loads (dumpsPretty (.jobj data)) = some (.jobj data) ∧
    read_json (write_json fs filepath data).2 filepath = dumpsAscii (.jobj data) := by
  have hfile : (write_json fs filepath data).2.files filepath =
      some (dumpsPretty (.jobj data)) := by
    rw [write_json, hw]
    simp
  have hload : loads (dumpsPretty (.jobj data)) = some (.jobj data) :=
    loads_dumps escCharF_ok _ hk
  have hre : (write_json fs filepath data).2.readErr filepath = none := by
    rw [write_json, hw]
    exact hr
  refine ⟨hfile, hload, ?_⟩
  rw [read_json, hfile, hre]
  show (match loads (dumpsPretty (.jobj data)) with
    | none => "❌ Error: Invalid JSON in file '" ++ filepath ++ "'"
    | some v => dumpsAscii v) = _
  rw [hload]

theorem claim_C5_witness :
    (write_json ⟨fun _ => none, fun _ => none, fun _ => none⟩ "users.json"
        [("a", .jint 1), ("b", .jstr "é")]).2.files "users.json" =
      some (dumpsPretty (.jobj [("a", .jint 1), ("b", .jstr "é")])) ∧
    loads (dumpsPretty (.jobj [("a", .jint 1), ("b", .jstr "é")])) =
      some (.jobj [("a", .jint 1), ("b", .jstr "é")]) ∧
    read_json (write_json ⟨fun _ => none, fun _ => none, fun _ => none⟩ "users.json"
        [("a", .jint 1), ("b", .jstr "é")]).2 "users.json" =
      dumpsAscii (.jobj [("a", .jint 1), ("b", .jstr "é")]) :=
  claim_C5 ⟨fun _ => none, fun _ => none, fun _ => none⟩ "users.json"
    [("a", .jint 1), ("b", .jstr "é")] rfl rfl (by rfl)

/-! ### The decoder only builds well-keyed objects -/

theorem beq_symm_false {a b : String} (h : (a == b) = false) : (b == a) = false :=
  beq_eq_false_iff_ne.mpr fun he => (beq_eq_false_iff_ne.mp h) he.symm

theorem freshKeys_map {f : (String × JVal) → (String × JVal)}
    (hf : ∀ kv, (f kv).1 = kv.1) : ∀ l, freshKeys (l.map f) = freshKeys l := by
  intro l
  induction l with
  | nil => rfl
  | cons kv kvs ih =>
    rw [List.map_cons, freshKeys, freshKeys, ih]
    have harg : (fun kv2 => (kv2.1 == (f kv).1)) ∘ f = fun kv2 => (kv2.1 == kv.1) := by
      funext kv2
      show ((f kv2).1 == (f kv).1) = (kv2.1 == kv.1)
      rw [hf kv2, hf kv]
    rw [List.any_map, harg]

theorem freshKeys_append_single :
    ∀ (acc : List (String × JVal)) (k : String) (v : JVal), freshKeys acc = true →
      acc.any (fun kv => kv.1 == k) = false → freshKeys (acc ++ [(k, v)]) = true := by
  intro acc
  induction acc with
  | nil => intro k v _ _; rfl
  | cons a accs ih =>
    intro k v hf hany
    rw [freshKeys, Bool.and_eq_true] at hf
    rw [List.any_cons, Bool.or_eq_false_iff] at hany
    rw [List.cons_append, freshKeys, Bool.and_eq_true]
    refine ⟨?_, ih k v hf.2 hany.2⟩
    rw [List.any_append]
    have h1 : accs.any (fun kv => kv.1 == a.1) = false := by simpa using hf.1
    have h2 : ([(k, v)].any fun kv => kv.1 == a.1) = false := by
      simp only [List.any_cons, List.any_nil, Bool.or_false]
      exact beq_symm_false hany.1
    rw [h1, h2]
    rfl

theorem freshKeys_dictAdd {acc : List (String × JVal)} (k : String) (v : JVal)
    (hacc : freshKeys acc = true) : freshKeys (dictAdd acc k v) = true := by
  rw [dictAdd]
  split_ifs with hany
  · rw [freshKeys_map ?_]
    · exact hacc
    · intro kv
      by_cases hk : (kv.1 == k) = true
      · simp only [hk, if_true]
        exact (eq_of_beq hk).symm
      · simp only [Bool.not_eq_true] at hk
        simp [hk]
  · exact freshKeys_append_single acc k v hacc (Bool.eq_false_iff.mpr hany)

theorem goodKeysM_append :
    ∀ (l1 l2 : List (String × JVal)),
      goodKeysM (l1 ++ l2) = (goodKeysM l1 && goodKeysM l2) := by
  intro l1 l2
  induction l1 with
  | nil => simp [goodKeysM]
  | cons a l1 ih =>
    rw [List.cons_append, goodKeysM, goodKeysM, ih, Bool.and_assoc]

theorem goodKeysM_dictAdd {acc : List (String × JVal)} (k : String) {v : JVal}
    (hacc : goodKeysM acc = true) (hv : goodKeys v = true) :
    goodKeysM (dictAdd acc k v) = true := by
  rw [dictAdd]
  split_ifs with hany
  · clear hany
    induction acc with
    | nil => rfl
    | cons a accs ih =>
      rw [goodKeysM, Bool.and_eq_true] at hacc
      rw [List.map_cons, goodKeysM, Bool.and_eq_true]
      refine ⟨?_, ih hacc.2⟩
      by_cases hk : (a.1 == k) = true
      · simp [hk, hv]
      · simp only [Bool.not_eq_true] at hk
        simp [hk, hacc.1]
  · rw [goodKeysM_append, Bool.and_eq_true]
    exact ⟨hacc, by simp [goodKeysM, hv]⟩

theorem dictFold_good :
    ∀ (pairs acc : List (String × JVal)), freshKeys acc = true → goodKeysM acc = true →
      goodKeysM pairs = true →
      freshKeys (pairs.foldl (fun acc kv => dictAdd acc kv.1 kv.2) acc) = true ∧
      goodKeysM (pairs.foldl (fun acc kv => dictAdd acc kv.1 kv.2) acc) = true := by
  intro pairs
  induction pairs with
  | nil => intro acc h1 h2 _; exact ⟨h1, h2⟩
  | cons kv kvs ih =>
    intro acc h1 h2 h3
    rw [goodKeysM, Bool.and_eq_true] at h3
    rw [List.foldl_cons]
    exact ih (dictAdd acc kv.1 kv.2) (freshKeys_dictAdd kv.1 kv.2 h1)
      (goodKeysM_dictAdd kv.1 h2 h3.1) h3.2

theorem dictFold_goodKeys {pairs : List (String × JVal)} (h : goodKeysM pairs = true) :
    goodKeys (.jobj (dictFold pairs)) = true := by
  rw [goodKeys, Bool.and_eq_true]
  exact dictFold_good pairs [] rfl rfl h

theorem parseVal_other {s : List Char} {c : Char} {cs : List Char} (fuel : Nat)
    (hs : skipWs s = c :: cs) (h1 : isDigitCh c = false) (h2 : c ≠ '-') (h3 : c ≠ '"')
    (h4 : c ≠ 'n') (h5 : c ≠ 't') (h6 : c ≠ 'f') (h7 : c ≠ '[') (h8 : c ≠ '{') :
    parseVal (fuel + 1) s = none := by
  rw [parseVal, hs]
  simp [h1, h2, h3, h4, h5, h6, h7, h8]

theorem parse_good :
    ∀ fuel : Nat,
      (∀ s v r, parseVal fuel s = some (v, r) → goodKeys v = true) ∧
      (∀ s l r, parseElems fuel s = some (l, r) → goodKeysL l = true) ∧
      (∀ s kvs r, parseMembers fuel s = some (kvs, r) → goodKeysM kvs = true) := by
  intro fuel
  induction fuel with
  | zero =>
    refine ⟨?_, ?_, ?_⟩ <;> intro s x r h
    · exact absurd h (by rw [parseVal]; simp)
    · exact absurd h (by rw [parseElems]; simp)
    · exact absurd h (by rw [parseMembers]; simp)
  | succ fuel ih =>
    obtain ⟨ihV, ihE, ihM⟩ := ih
    refine ⟨?_, ?_, ?_⟩
    · intro s v r h
      rcases hskip : skipWs s with _ | ⟨c, cs⟩
      · rw [parseVal, hskip] at h
        exact absurd h (by simp)
      · by_cases hd : isDigitCh c = true
        · rw [parseVal_digit fuel hskip hd] at h
          rcases hp : parseNum (c :: cs) with _ | p
          · rw [hp] at h; exact absurd h (by simp)
          · rw [hp] at h
            have h' := Option.some.inj h
            injection h' with hv hr
            subst hv
            rfl
        · by_cases hm : c = '-'
          · subst hm
            rw [parseVal_neg fuel hskip] at h
            rcases hp : parseNum cs with _ | p
            · rw [hp] at h; exact absurd h (by simp)
            · rw [hp] at h
              have h' := Option.some.inj h
              injection h' with hv hr
              subst hv
              rfl
          · by_cases hq : c = '"'
            · subst hq
              rw [parseVal_str fuel hskip] at h
              rcases hp : parseStrBody (cs.length + 1) cs with _ | p
              · rw [hp] at h; exact absurd h (by simp)
              · rw [hp] at h
                have h' := Option.some.inj h
                injection h' with hv hr
                subst hv
                rfl
            · by_cases hn : c = 'n'
              · subst hn
                rw [parseVal_null fuel hskip] at h
                rcases hp : stripPre "ull".data cs with _ | r2
                · rw [hp] at h; exact absurd h (by simp)
                · rw [hp] at h
                  have h' := Option.some.inj h
                  injection h' with hv hr
                  subst hv
                  rfl
              · by_cases htt : c = 't'
                · subst htt
                  rw [parseVal_true fuel hskip] at h
                  rcases hp : stripPre "rue".data cs with _ | r2
                  · rw [hp] at h; exact absurd h (by simp)
                  · rw [hp] at h
                    have h' := Option.some.inj h
                    injection h' with hv hr
                    subst hv
                    rfl
                · by_cases hff : c = 'f'
                  · subst hff
                    rw [parseVal_false fuel hskip] at h
                    rcases hp : stripPre "alse".data cs with _ | r2
                    · rw [hp] at h; exact absurd h (by simp)
                    · rw [hp] at h
                      have h' := Option.some.inj h
                      injection h' with hv hr
                      subst hv
                      rfl
                  · by_cases hbr : c = '['
                    · subst hbr
                      rw [parseVal_arr fuel hskip] at h
                      split at h
                      · have h' := Option.some.inj h
                        injection h' with hv hr
                        subst hv
                        rfl
                      · rcases hp : parseElems fuel cs with _ | p
                        · rw [hp] at h; exact absurd h (by simp)
                        · rw [hp] at h
                          have h' := Option.some.inj h
                          injection h' with hv hr
                          subst hv
                          rw [goodKeys]
                          exact ihE cs p.1 p.2 hp
                    · by_cases hbc : c = '{'
                      · subst hbc
                        rw [parseVal_obj fuel hskip] at h
                        split at h
                        · have h' := Option.some.inj h
                          injection h' with hv hr
                          subst hv
                          rfl
                        · rcases hp : parseMembers fuel cs with _ | p
                          · rw [hp] at h; exact absurd h (by simp)
                          · rw [hp] at h
                            have h' := Option.some.inj h
                            injection h' with hv hr
                            subst hv
                            exact dictFold_goodKeys (ihM cs p.1 p.2 hp)
                      · rw [parseVal_other fuel hskip (Bool.eq_false_iff.mpr hd) hm hq hn
                          htt hff hbr hbc] at h
                        exact absurd h (by simp)
    · intro s l r h
      rw [parseElems] at h
      split at h
      · exact absurd h (by simp)
      · rename_i v r1 heq
        dsimp only at h
        split at h
        · split at h
          · rename_i p heq2
            have h' := Option.some.inj h
            injection h' with hl hr
            subst hl
            rw [goodKeysL, Bool.and_eq_true]
            exact ⟨ihV s v r1 heq, ihE _ p.1 p.2 heq2⟩
          · exact absurd h (by simp)
        · split at h
          · have h' := Option.some.inj h
            injection h' with hl hr
            subst hl
            rw [goodKeysL, Bool.and_eq_true]
            exact ⟨ihV s v r1 heq, rfl⟩
          · exact absurd h (by simp)
    · intro s kvs r h
      rw [parseMembers] at h
      split at h
      · split at h
        · exact absurd h (by simp)
        · rename_i k r1 heq1
          dsimp only at h
          split at h
          · split at h
            · exact absurd h (by simp)
            · rename_i v r2 heq2
              split at h
              · split at h
                · rename_i p heq3
                  have h' := Option.some.inj h
                  injection h' with hl hr
                  subst hl
                  rw [goodKeysM, Bool.and_eq_true]
                  exact ⟨ihV _ v r2 heq2, ihM _ p.1 p.2 heq3⟩
                · exact absurd h (by simp)
              · split at h
                · have h' := Option.some.inj h
                  injection h' with hl hr
                  subst hl
                  rw [goodKeysM, Bool.and_eq_true]
                  exact ⟨ihV _ v r2 heq2, rfl⟩
                · exact absurd h (by simp)
          · exact absurd h (by simp)
      · exact absurd h (by simp)

/-! ### `ensure_ascii=True` output is pure ASCII; `ensure_ascii=False`
keeps printable characters verbatim -/

theorem digitChar_ascii : ∀ k, k < 16 → (Nat.digitChar k).toNat < 128 := by decide

theorem hex4Chars_ascii (n : Nat) : ∀ x ∈ hex4Chars n, x.toNat < 128 := by
  intro x hx
  rw [hex4Chars] at hx
  simp only [List.mem_cons, List.not_mem_nil, or_false] at hx
  rcases hx with rfl | rfl | rfl | rfl <;> exact digitChar_ascii _ (by omega)

theorem escCharF_ascii {c : Char} (hc : c.toNat < 128) : ∀ x ∈ escCharF c, x.toNat < 128 := by
  intro x hx
  rw [escCharF] at hx
  split_ifs at hx <;>
    first
    | (simp only [List.mem_cons, List.not_mem_nil, or_false] at hx
       rcases hx with rfl | rfl <;> decide)
    | (simp only [List.mem_cons] at hx
       rcases hx with rfl | rfl | hx
       · decide
       · decide
       · exact hex4Chars_ascii _ x hx)
    | (simp only [List.mem_cons, List.not_mem_nil, or_false] at hx
       rw [hx]
       exact hc)

theorem escCharT_ascii (c : Char) : ∀ x ∈ escCharT c, x.toNat < 128 := by
  intro x hx
  rw [escCharT] at hx
  split_ifs at hx with h1 h2
  · exact escCharF_ascii (by omega) x hx
  · simp only [List.mem_cons] at hx
    rcases hx with rfl | rfl | hx
    · decide
    · decide
    · exact hex4Chars_ascii _ x hx
  · simp only [List.mem_cons, List.mem_append, or_assoc] at hx
    rcases hx with rfl | rfl | hx | rfl | rfl | hx
    · decide
    · decide
    · exact hex4Chars_ascii _ x hx
    · decide
    · decide
    · exact hex4Chars_ascii _ x hx

theorem natRepr_ascii (n : Nat) : ∀ x ∈ natRepr n, x.toNat < 128 := by
  intro x hx
  have := isDigitCh_toNat (natRepr_all_digits n x hx)
  omega

theorem intRepr_ascii (n : Int) : ∀ x ∈ intRepr n, x.toNat < 128 := by
  intro x hx
  cases n with
  | ofNat m => exact natRepr_ascii m x hx
  | negSucc m =>
    rcases List.mem_cons.mp hx with rfl | hx
    · decide
    · exact natRepr_ascii _ x hx

theorem indentC_ascii (d : Nat) : ∀ x ∈ indentC d, x.toNat < 128 := by
  intro x hx
  rw [indentC, List.mem_replicate] at hx
  rw [hx.2]
  decide

mutual
theorem serVal_ascii (d : Nat) (v : JVal) : ∀ x ∈ serVal escCharT d v, x.toNat < 128 := by
  intro x hx
  cases v with
  | jnull =>
    rw [serVal] at hx
    simp only [List.mem_cons, List.not_mem_nil, or_false] at hx
    rcases hx with rfl | rfl | rfl | rfl <;> decide
  | jbool b =>
    cases b <;>
      (rw [serVal] at hx
       simp only [List.mem_cons, List.not_mem_nil, or_false] at hx) <;>
      (rcases hx with rfl | rfl | rfl | rfl | rfl <;> decide)
  | jint n => exact intRepr_ascii n x hx
  | jstr s =>
    rw [serVal] at hx
    simp only [List.mem_cons, List.mem_append, List.mem_flatMap,
      List.not_mem_nil, or_false, or_assoc] at hx
    rcases hx with rfl | ⟨c, _, hc2⟩ | rfl
    · decide
    · exact escCharT_ascii c x hc2
    · decide
  | jarr l =>
    cases l with
    | nil =>
      rw [serVal] at hx
      simp only [List.mem_cons, List.not_mem_nil, or_false] at hx
      rcases hx with rfl | rfl <;> decide
    | cons y ys =>
      rw [serVal] at hx
      simp only [List.mem_cons, List.mem_append, List.not_mem_nil, or_false,
        or_assoc] at hx
      rcases hx with rfl | rfl | hx | hx | hx | rfl | hx | rfl
      · decide
      · decide
      · exact indentC_ascii _ x hx
      · exact serVal_ascii (d + 1) y x hx
      · exact serElems_ascii (d + 1) ys x hx
      · decide
      · exact indentC_ascii _ x hx
      · decide
  | jobj kvs =>
    cases kvs with
    | nil =>
      rw [serVal] at hx
      simp only [List.mem_cons, List.not_mem_nil, or_false] at hx
      rcases hx with rfl | rfl <;> decide
    | cons kv kvs =>
      rw [serVal] at hx
      simp only [List.mem_cons, List.mem_append, List.mem_flatMap,
        List.not_mem_nil, or_false, or_assoc] at hx
      rcases hx with rfl | rfl | hx | rfl | ⟨c, _, hc2⟩ | rfl | rfl | rfl | hx | hx | rfl | hx | rfl
      · decide
      · decide
      · exact indentC_ascii _ x hx
      · decide
      · exact escCharT_ascii c x hc2
      · decide
      · decide
      · decide
      · exact serVal_ascii (d + 1) kv.2 x hx
      · exact serMembers_ascii (d + 1) kvs x hx
      · decide
      · exact indentC_ascii _ x hx
      · decide

theorem serElems_ascii (d : Nat) (l : List JVal) :
    ∀ x ∈ serElems escCharT d l, x.toNat < 128 := by
  intro x hx
  cases l with
  | nil => rw [serElems] at hx; exact absurd hx (List.not_mem_nil x)
  | cons y ys =>
    rw [serElems] at hx
    simp only [List.mem_cons, List.mem_append, or_assoc] at hx
    rcases hx with rfl | rfl | hx | hx | hx
    · decide
    · decide
    · exact indentC_ascii _ x hx
    · exact serVal_ascii d y x hx
    · exact serElems_ascii d ys x hx

theorem serMembers_ascii (d : Nat) (kvs : List (String × JVal)) :
    ∀ x ∈ serMembers escCharT d kvs, x.toNat < 128 := by
  intro x hx
  cases kvs with
  | nil => rw [serMembers] at hx; exact absurd hx (List.not_mem_nil x)
  | cons kv kvs =>
    rw [serMembers] at hx
    simp only [List.mem_cons, List.mem_append, List.mem_flatMap, or_assoc] at hx
    rcases hx with rfl | rfl | hx | rfl | ⟨c, _, hc2⟩ | rfl | rfl | rfl | hx | hx
    · decide
    · decide
    · exact indentC_ascii _ x hx
    · decide
    · exact escCharT_ascii c x hc2
    · decide
    · decide
    · decide
    · exact serVal_ascii d kv.2 x hx
    · exact serMembers_ascii d kvs x hx
end

theorem escCharF_verbatim {c : Char} (h1 : 0x20 ≤ c.toNat) (h2 : c ≠ '"')
    (h3 : c ≠ '\\') : escCharF c = [c] := by
  rw [escCharF]
  rw [if_neg h2, if_neg h3,
    if_neg (char_ne_of_toNat (by rw [show ('\n').toNat = 10 from rfl]; omega)),
    if_neg (char_ne_of_toNat (by rw [show ('\t').toNat = 9 from rfl]; omega)),
    if_neg (char_ne_of_toNat (by rw [show ('\r').toNat = 13 from rfl]; omega)),
    if_neg (char_ne_of_toNat (by rw [show ('\x08').toNat = 8 from rfl]; omega)),
    if_neg (char_ne_of_toNat (by rw [show ('\x0c').toNat = 12 from rfl]; omega)),
    if_neg (by omega)]

theorem serF_str_verbatim (d : Nat) (s : String) {c : Char} (hc : c ∈ s.data)
    (h1 : 0x20 ≤ c.toNat) (h2 : c ≠ '"') (h3 : c ≠ '\\') :
    c ∈ serVal escCharF d (.jstr s) := by
  rw [serVal]
  refine List.mem_cons_of_mem _ (List.mem_append_left _ ?_)
  exact List.mem_flatMap.mpr ⟨c, hc, by rw [escCharF_verbatim h1 h2 h3]; exact List.mem_singleton.mpr rfl⟩

/-- Claim C10: `read_json` re-serializes what it parsed with
`json.dumps(data, indent=2)` at the default `ensure_ascii=True`, so its
returned text is pure ASCII (every non-ASCII character of the file's
JSON content comes back `\u`-escaped), while `write_json` passes
`ensure_ascii=False` and so writes printable non-ASCII characters
verbatim; hence for every file whose JSON content holds a non-ASCII
character, the text `read_json` returns is not character-identical to
the file's contents even though it parses to the same value. -/
theorem claim_C10 (fs : FS) (filepath content : String) (v : JVal)
    (hf : fs.files filepath = some content) (hr : fs.readErr filepath = none)
    (hl : loads content = some v) (hna : ∃ c ∈ content.data, 127 < c.toNat) :
    read_json fs filepath = dumpsAscii v ∧
    (∀ c ∈ (read_json fs filepath).data, c.toNat < 128) ∧
    read_json fs filepath ≠ content ∧
    loads (read_json fs filepath) = some v ∧
    (∀ (s : String) (c : Char) (d : Nat), c ∈ s.data → 0x20 ≤ c.toNat → c ≠ '"' →
      c ≠ '\\' → c ∈ serVal escCharF d (.jstr s)) := by
  have hread : read_json fs filepath = dumpsAscii v := by
    rw [read_json, hf, hr]
    show (match loads content with
      | none => "❌ Error: Invalid JSON in file '" ++ filepath ++ "'"
      | some v => dumpsAscii v) = _
    rw [hl]
  have hascii : ∀ c ∈ (read_json fs filepath).data, c.toNat < 128 := by
    rw [hread]
    exact fun c hc => serVal_ascii 0 v c hc
  have hgk : goodKeys v = true := by
    rw [loads] at hl
    rcases hp : parseVal (2 * content.data.length + 2) content.data with _ | p
    · rw [hp] at hl
      exact absurd hl (by simp)
    · obtain ⟨w, rest⟩ := p
      rw [hp] at hl
      have hl2 : (if skipWs rest = [] then some w else none) = some v := hl
      split at hl2
      · have hw := Option.some.inj hl2
        subst hw
        exact (parse_good _).1 content.data w rest hp
      · exact absurd hl2 (by simp)
  refine ⟨hread, hascii, ?_, ?_, fun s c d hc h1 h2 h3 => serF_str_verbatim d s hc h1 h2 h3⟩
  · intro he
    obtain ⟨c, hc, hgt⟩ := hna
    rw [← he] at hc
    exact absurd (hascii c hc) (by omega)
  · rw [hread]
    exact loads_dumps escCharT_ok v hgk

theorem claim_C10_witness :
    read_json ⟨fun _ => some "\"é\"", fun _ => none, fun _ => none⟩ "f.json" =
      dumpsAscii (.jstr "é") ∧
    (∀ c ∈ (read_json ⟨fun _ => some "\"é\"", fun _ => none, fun _ => none⟩
      "f.json").data, c.toNat < 128) ∧
    read_json ⟨fun _ => some "\"é\"", fun _ => none, fun _ => none⟩ "f.json" ≠ "\"é\"" ∧
    loads (read_json ⟨fun _ => some "\"é\"", fun _ => none, fun _ => none⟩ "f.json") =
      some (.jstr "é") ∧
    (∀ (s : String) (c : Char) (d : Nat), c ∈ s.data → 0x20 ≤ c.toNat → c ≠ '"' →
      c ≠ '\\' → c ∈ serVal escCharF d (.jstr s)) :=
  claim_C10 ⟨fun _ => some "\"é\"", fun _ => none, fun _ => none⟩ "f.json" "\"é\""
    (.jstr "é") rfl rfl (by rfl) ⟨'é', by decide, by decide⟩
